import Mathlib

/-
Verification development for the Pk1D post-processing engine
(py/picca/pk1d/postproc_pk1d.py).

The embedding models floating-point data as `Option ℚ`: `none` stands for
NaN and `some q` for a finite value; the NaN-propagation rules of the
numpy reductions (`mean`, `average`, `std`, `min`, `max`, `median`,
`nansum`) are reproduced explicitly.  Errors raised by the Python code are
modelled with `Except String`.  Quantities that the source stores as a
standard error are represented by their square (`errv` is the square of
the table's `error*` column), which keeps every computation inside ℚ;
since both sides of every claim about errors are non-negative square
roots, the squared statements are equivalent to the original ones.
-/

/-! ## numpy-style reductions on `Option ℚ` (NaN = `none`) -/

/-- numpy `nansum`: NaN entries are treated as 0. -/
def npNansum (xs : List (Option ℚ)) : ℚ :=
  (xs.map (fun x => x.getD 0)).sum

/-- numpy `mean`: NaN if the list is empty or contains a NaN. -/
def npMean (xs : List (Option ℚ)) : Option ℚ :=
  if xs.length = 0 ∨ xs.any (fun x => x.isNone) then none
  else some (xs.reduceOption.sum / xs.length)

/-- numpy `average` with weights: NaN as soon as one value is NaN.
The call sites guarantee a non-zero weight sum. -/
def npAverage (xs : List (Option ℚ)) (ws : List ℚ) : Option ℚ :=
  if xs.length = 0 ∨ xs.any (fun x => x.isNone) then none
  else some (((xs.reduceOption.zip ws).map (fun p => p.1 * p.2)).sum / ws.sum)

/-- Square of numpy `std` (population variance, ddof = 0); NaN on empty or
NaN-containing input. -/
def npVar (xs : List (Option ℚ)) : Option ℚ :=
  if xs.length = 0 ∨ xs.any (fun x => x.isNone) then none
  else
    some (let ys := xs.reduceOption
          let m := ys.sum / ys.length
          (ys.map (fun x => (x - m) ^ 2)).sum / ys.length)

/-- numpy `min`: NaN propagates. -/
def npMin (xs : List (Option ℚ)) : Option ℚ :=
  if xs.any (fun x => x.isNone) then none
  else match xs.reduceOption with
       | [] => none
       | y :: ys => some (ys.foldl min y)

/-- numpy `max`: NaN propagates. -/
def npMax (xs : List (Option ℚ)) : Option ℚ :=
  if xs.any (fun x => x.isNone) then none
  else match xs.reduceOption with
       | [] => none
       | y :: ys => some (ys.foldl max y)

/-- Insertion of one element into a sorted list (ascending). -/
def insortQ (x : ℚ) : List ℚ → List ℚ
  | [] => [x]
  | y :: ys => if x ≤ y then x :: y :: ys else y :: insortQ x ys

/-- Insertion sort, used to model the sort inside numpy `median`. -/
def sortQ (l : List ℚ) : List ℚ := l.foldr insortQ []

/-- numpy `median`: NaN propagates; mean of the two central elements for
even length. -/
def npMedian (xs : List (Option ℚ)) : Option ℚ :=
  if xs.any (fun x => x.isNone) then none
  else
    let ys := sortQ xs.reduceOption
    if ys.length = 0 then none
    else if ys.length % 2 = 1 then some (ys.getD (ys.length / 2) 0)
    else some ((ys.getD (ys.length / 2 - 1) 0 + ys.getD (ys.length / 2) 0) / 2)

/-! ## read_pk1d: derivation of the clean-power column

Embeds the block of `read_pk1d`:
`if np.nansum(chunk_table["Pk"]) == 0: chunk_table["Pk"] = (Pk_raw - Pk_noise) / cor_reso`.
 -/

/-- Elementwise `(raw - noise) / reso` with NaN propagation. -/
def derivedPk (pk_raw pk_noise cor_reso : List (Option ℚ)) : List (Option ℚ) :=
  List.zipWith3
    (fun r n c =>
      match r, n, c with
      | some r, some n, some c => some ((r - n) / c)
      | _, _, _ => none)
    pk_raw pk_noise cor_reso

/-- The `Pk` column produced by `read_pk1d` for one chunk: recomputed from
raw, noise and resolution correction when the nan-ignoring sum of the
supplied column is zero, kept as supplied otherwise. -/
def read_pk1d_pk (pk pk_raw pk_noise cor_reso : List (Option ℚ)) : List (Option ℚ) :=
  if npNansum pk = 0 then derivedPk pk_raw pk_noise cor_reso else pk

/-! ## Bin membership (fill_average_pk_redshift selection and k_index) -/

/-- The (z,k) cell selection of `fill_average_pk_redshift` without redshift
weighting: `(forest_z < zedge[i+1]) & (forest_z > zedge[i]) &
(k < kedge[j+1]) & (k > kedge[j])` — all four comparisons strict. -/
def select_zk (zbin_edges kbin_edges : List ℚ) (izbin ikbin : ℕ) (z kq : ℚ) : Bool :=
  decide (z < zbin_edges.getD (izbin + 1) 0) && decide (zbin_edges.getD izbin 0 < z) &&
  decide (kq < kbin_edges.getD (ikbin + 1) 0) && decide (kbin_edges.getD ikbin 0 < kq)

/-- Modelled from the spec: cell membership with half-open intervals,
lower edge included, upper edge excluded (the convention the data-model
section claims). -/
def spec_member (zbin_edges kbin_edges : List ℚ) (izbin ikbin : ℕ) (z kq : ℚ) : Prop :=
  zbin_edges.getD izbin 0 ≤ z ∧ z < zbin_edges.getD (izbin + 1) 0 ∧
  kbin_edges.getD ikbin 0 ≤ kq ∧ kq < kbin_edges.getD (ikbin + 1) 0

instance (zbin_edges kbin_edges : List ℚ) (izbin ikbin : ℕ) (z kq : ℚ) :
    Decidable (spec_member zbin_edges kbin_edges izbin ikbin z kq) := by
  unfold spec_member; infer_instance

/-- The per-k-bin test of the covariance `k_index` assignment:
`(k < kedge[j+1]) & (k > kedge[j])`. -/
def k_index_select (kbin_edges : List ℚ) (ikbin : ℕ) (kq : ℚ) : Bool :=
  decide (kq < kbin_edges.getD (ikbin + 1) 0) && decide (kbin_edges.getD ikbin 0 < kq)

/-- The `k_index` array entry for one sample: the loop of
`compute_mean_pk1d` starts from -1 and overwrites with each k bin whose
test selects the sample. -/
def k_index_of (kbin_edges : List ℚ) (kq : ℚ) : ℤ :=
  (List.range (kbin_edges.length - 1)).foldl
    (fun acc ikbin => if k_index_select kbin_edges ikbin kq then (ikbin : ℤ) else acc)
    (-1)

/-! ## Unit conversion (velunits branch of compute_mean_pk1d) -/

/-- Substring test for "Pk", modelling the Python `"Pk" in col`. -/
def hasPkSub : List Char → Bool
  | [] => false
  | c :: rest => (c = 'P' && rest.head?.getD ' ' = 'k') || hasPkSub rest

/-- A table is a list of (column name, per-row values).  The velunits
branch of `compute_mean_pk1d`: `k` is multiplied by the per-row conversion
factor `lya * (1 + forest_z) / speed_light`, every column of
`p1d_table_cols` (all columns except the identifiers `forest_id` and
`sub_forest_id`) whose name contains "Pk" is divided by it, and nothing
else changes.  `forest_z` is passed as the values of the redshift column,
`lya` and `speed_light` as the constants `ABSORBER_IGM["LYA"]` and
`SPEED_LIGHT`. -/
def velunits_convert (lya speed_light : ℚ) (velunits : Bool) (forest_z : List ℚ)
    (cols : List (String × List ℚ)) : List (String × List ℚ) :=
  if velunits then
    let cf := forest_z.map (fun z => lya * (1 + z) / speed_light)
    cols.map (fun col =>
      if col.1 = "k" then (col.1, List.zipWith (fun x f => x * f) col.2 cf)
      else if col.1 ≠ "forest_id" ∧ col.1 ≠ "sub_forest_id" ∧ hasPkSub col.1.data then
        (col.1, List.zipWith (fun x f => x / f) col.2 cf)
      else col)
  else cols

/-- Column lookup by name (first match), for stating which columns change. -/
def colVal (cols : List (String × List ℚ)) (name : String) : Option (List ℚ) :=
  (cols.find? (fun col => col.1 = name)).map (fun col => col.2)

/-! ## Weighting branches of fill_average_pk_redshift (per-cell statistics)

Each branch receives the selected member values of one column (`vals`,
NaN-capable) and the members' `forest_snr` values.  It returns the pair
(mean, squared error).
-/

/-- The `no_weights` branch without redshift weights: plain mean, error =
`std / sqrt(num_chunks - 1)` (represented squared).  For a single member
the source divides by zero, giving NaN. -/
def no_weights_stats (vals : List (Option ℚ)) : Option ℚ × Option ℚ :=
  (npMean vals,
   if vals.length ≤ 1 then none
   else (npVar vals).map (fun v => v / ((vals.length : ℚ) - 1)))

/-- The `no_weights` branch with redshift weights `rw`: weighted average,
error = `std * sqrt(sum rw^2) / sum rw` (represented squared). -/
def no_weights_z_stats (vals : List (Option ℚ)) (rw : List ℚ) : Option ℚ × Option ℚ :=
  (npAverage vals rw,
   (npVar vals).map (fun v => v * (rw.map (fun w => w ^ 2)).sum / (rw.sum) ^ 2))

/-- The `simple_snr` branch: fatal `RuntimeError` when any member has
SNR ≤ 1; otherwise weight `(snr - 1)^2` capped at 9 above `snr_limit = 4`,
weighted mean, and error from the weighted residual sum rescaled by
`num_chunks - 1` (represented squared). -/
def simple_snr_stats (vals : List (Option ℚ)) (snrs : List ℚ) :
    Except String (Option ℚ × Option ℚ) :=
  if 0 < (snrs.filter (fun s => decide (s ≤ 1))).length then
    .error "Cannot add weights with SNR<=1."
  else
    let weights := snrs.map (fun s => if 4 < s then (9 : ℚ) else (s - 1) ^ 2)
    match npAverage vals weights with
    | none => .ok (none, none)
    | some m =>
      let alpha := ((vals.reduceOption.zip weights).map (fun p => p.2 * (p.1 - m) ^ 2)).sum
      .ok (some m,
           if vals.length ≤ 1 then none
           else some (alpha / (weights.sum * ((vals.length : ℚ) - 1))))

/-- The NaN-exclusion step of the `fit_snr` branch: members whose value is
NaN are dropped from both the value list and the SNR list before any
weight is computed. -/
def fit_snr_filter (snrs : List ℚ) (vals : List (Option ℚ)) : List ℚ × List ℚ :=
  ((snrs.zip vals).filterMap (fun p => p.2.map (fun v => (p.1, v)))).unzip

/-- SNR clamped to `[1.01, MEANPK_FITRANGE_SNR[1]] = [1.01, 10]` before
evaluating the fitted variance curve.  Modelled from the spec:
`MEANPK_FITRANGE_SNR` lives in `picca.pk1d.utils`, outside the sources;
the spec gives the default quality-bin range 1..10. -/
def clampSnr (s : ℚ) : ℚ :=
  if 10 < s then 10 else if s < 101 / 100 then 101 / 100 else s

/-- The `fit_snr` branch.  Modelled from the spec for the numeric fit:
the binned standard deviations and the nonlinear least-squares fit
(`binned_statistic` + `curve_fit` of `fitfunc_variance_pk1d`, both outside
the sources) are abstracted into `fitVar`, which receives the NaN-filtered
SNRs and values and returns the fitted variance at a clamped SNR.  The
weights are the reciprocals of that variance; with redshift weighting the
weights are further multiplied by the redshift weights of the surviving
members. -/
def fit_snr_stats (fitVar : List ℚ → List ℚ → ℚ → ℚ) (azw : Bool)
    (vals : List (Option ℚ)) (snrs : List ℚ) (rw : List ℚ) : Option ℚ × Option ℚ :=
  let fs := fit_snr_filter snrs vals
  let baseW := fs.1.map (fun s => 1 / fitVar fs.1 fs.2 (clampSnr s))
  let rwF := ((snrs.zip vals).zip rw).filterMap
    (fun p => if p.1.2.isSome then some p.2 else none)
  let weights := if azw then (baseW.zip rwF).map (fun p => p.1 * p.2) else baseW
  let mean := ((fs.2.zip weights).map (fun p => p.1 * p.2)).sum / weights.sum
  (some mean,
   if azw then some (((weights.zip rwF).map (fun p => p.1 * p.2)).sum / (weights.sum) ^ 2)
   else some (1 / weights.sum))

/-- Dispatch on the `weight_method` string, exactly the if/elif/else chain
of the column loop; an unrecognized name is a `ValueError`. -/
def weight_dispatch (wm : String) (azw : Bool) (fitVar : List ℚ → List ℚ → ℚ → ℚ)
    (vals : List (Option ℚ)) (snrs : List ℚ) (rw : List ℚ) :
    Except String (Option ℚ × Option ℚ) :=
  if wm = "fit_snr" then .ok (fit_snr_stats fitVar azw vals snrs rw)
  else if wm = "simple_snr" then simple_snr_stats vals snrs
  else if wm = "no_weights" then
    .ok (if azw then no_weights_z_stats vals rw else no_weights_stats vals)
  else .error "weight_method option not found"

/-! ## The mean-P1D table and fill_average_pk_redshift

The table keeps one tracked quantity (the generic column of the column
loop); `zbin`, `index_zbin` and `N` are as in the source, the five
statistics columns are NaN-capable.
-/

/-- One chunk sample (one row of `p1d_table`): redshift and SNR of the
chunk it belongs to, wavenumber, and the tracked column's value. -/
structure Sample where
  forest_z : ℚ
  k : ℚ
  forest_snr : ℚ
  value : Option ℚ
deriving DecidableEq

/-- One row of `mean_p1d_table`; `errv` holds the square of the source's
error column. -/
structure MeanRow where
  zbin : ℚ
  index_zbin : ℕ
  n : ℕ
  meanv : Option ℚ
  errv : Option ℚ
  minv : Option ℚ
  maxv : Option ℚ
  medv : Option ℚ
deriving DecidableEq

instance : Inhabited MeanRow := ⟨⟨0, 0, 0, none, none, none, none, none⟩⟩

/-- numpy `around(x, 5)` (round half to even), used for the z-bin centers. -/
def np_around5 (x : ℚ) : ℚ :=
  let t := x * 100000
  let fl : ℤ := ⌊t⌋
  let fr := t - fl
  (if fr < 1 / 2 then (fl : ℚ)
   else if 1 / 2 < fr then ((fl + 1 : ℤ) : ℚ)
   else if fl % 2 = 0 then (fl : ℚ) else ((fl + 1 : ℤ) : ℚ)) / 100000

/-- Center of redshift bin `i`: `around((zedge[i] + zedge[i+1]) / 2, 5)`. -/
def zbin_centers_def (zbin_edges : List ℚ) (i : ℕ) : ℚ :=
  np_around5 ((zbin_edges.getD i 0 + zbin_edges.getD (i + 1) 0) / 2)

/-- The deltas `zbin_centers[1:] - zbin_centers[:-1]` checked by the
redshift-weighting branch. -/
def z_center_deltas (zbin_edges : List ℚ) : List ℚ :=
  let c := (List.range (zbin_edges.length - 1)).map (zbin_centers_def zbin_edges)
  (c.zip c.tail).map (fun p => p.2 - p.1)

/-- `scipy.stats.binned_statistic(..., statistic="count")`: half-open bins
with the last bin closed on the right.  This is `n_chunks` of
`compute_mean_pk1d`. -/
def scipy_bin_count (z_array : List ℚ) (zbin_edges : List ℚ) (i : ℕ) : ℕ :=
  (z_array.filter (fun z =>
    decide (zbin_edges.getD i 0 ≤ z) &&
    (decide (z < zbin_edges.getD (i + 1) 0) ||
     (decide (i + 2 = zbin_edges.length) && decide (z = zbin_edges.getD (i + 1) 0))))).length

/-- The widened two-bin selection used when `apply_z_weights` is set:
neighbouring-center bounds for interior bins, strict in-bin bounds for the
first and last bin. -/
def select_zk_zweights (zbin_edges kbin_edges : List ℚ) (nbins_z izbin ikbin : ℕ)
    (z kq : ℚ) : Bool :=
  (decide (kq < kbin_edges.getD (ikbin + 1) 0) && decide (kbin_edges.getD ikbin 0 < kq)) &&
  (if izbin = 0 ∨ izbin = nbins_z - 1 then
    decide (zbin_edges.getD izbin 0 < z) && decide (z < zbin_edges.getD (izbin + 1) 0)
   else
    decide (z < zbin_centers_def zbin_edges (izbin + 1)) &&
    decide (zbin_centers_def zbin_edges (izbin - 1) < z))

/-- The linear redshift falloff weight `1 - |z - zbin_center| / delta_z`. -/
def redshift_weight (zc dz z : ℚ) : ℚ := 1 - |z - zc| / dz

/-- The body shared by every k bin of `fill_average_pk_redshift` once the
members `sel` (and their redshift weights `rw`) are selected: write the
bin identity and member count into row `index`, and when the cell is not
empty compute the statistics of the tracked column under the chosen
weighting. -/
def fill_cell_core (wm : String) (azw nomed : Bool)
    (fitVar : List ℚ → List ℚ → ℚ → ℚ) (zc : ℚ) (izbin index : ℕ)
    (sel : List Sample) (rw : List ℚ) (tbl : List MeanRow) :
    Except String (List MeanRow) :=
  let row0 := tbl.getD index default
  let row1 : MeanRow := { row0 with zbin := zc, index_zbin := izbin, n := sel.length }
  if sel.length = 0 then .ok (tbl.set index row1)
  else
    let vals := sel.map (fun s => s.value)
    match weight_dispatch wm azw fitVar vals (sel.map (fun s => s.forest_snr)) rw with
    | .error e => .error e
    | .ok stats =>
      .ok (tbl.set index
        { row1 with
          meanv := stats.1
          errv := stats.2
          minv := npMin vals
          maxv := npMax vals
          medv := if nomed then row1.medv else npMedian vals })

/-- One iteration of the k-bin loop of `fill_average_pk_redshift`: the
uniform-spacing check and widened selection when `apply_z_weights` is set,
the plain (z,k) selection otherwise. -/
def fill_cell (samples : List Sample) (zbin_edges kbin_edges : List ℚ)
    (wm : String) (azw nomed : Bool) (fitVar : List ℚ → List ℚ → ℚ → ℚ)
    (izbin : ℕ) (tbl : List MeanRow) (ikbin : ℕ) : Except String (List MeanRow) :=
  let nbins_z := zbin_edges.length - 1
  let nbins_k := kbin_edges.length - 1
  let zc := zbin_centers_def zbin_edges izbin
  let index := nbins_k * izbin + ikbin
  if azw then
    match z_center_deltas zbin_edges with
    | [] => .error "IndexError: index 0 is out of bounds"
    | d0 :: ds =>
      if (d0 :: ds).all (fun d => decide (|d - d0| ≤ 1 / 1000 + |d0| / 100000)) then
        let sel := samples.filter (fun s =>
          select_zk_zweights zbin_edges kbin_edges nbins_z izbin ikbin s.forest_z s.k)
        fill_cell_core wm azw nomed fitVar zc izbin index sel
          (sel.map (fun s => redshift_weight zc d0 s.forest_z)) tbl
      else .error "z bins should have equal widths with apply_z_weights."
  else
    let sel := samples.filter (fun s =>
      select_zk zbin_edges kbin_edges izbin ikbin s.forest_z s.k)
    fill_cell_core wm azw nomed fitVar zc izbin index sel [] tbl

/-- `fill_average_pk_redshift` for one redshift bin: when the bin holds no
chunk, only `zbin` and `index_zbin` of its row range are filled (the
statistics stay NaN); otherwise the k-bin loop runs. -/
def fill_average_pk_redshift (samples : List Sample) (z_array : List ℚ)
    (zbin_edges kbin_edges : List ℚ) (wm : String) (azw nomed : Bool)
    (fitVar : List ℚ → List ℚ → ℚ → ℚ) (tbl : List MeanRow) (izbin : ℕ) :
    Except String (List MeanRow) :=
  let nbins_k := kbin_edges.length - 1
  if scipy_bin_count z_array zbin_edges izbin = 0 then
    .ok ((List.range nbins_k).foldl
      (fun t ik =>
        t.set (nbins_k * izbin + ik)
          { t.getD (nbins_k * izbin + ik) default with
            zbin := zbin_centers_def zbin_edges izbin, index_zbin := izbin })
      tbl)
  else
    (List.range nbins_k).foldlM
      (fill_cell samples zbin_edges kbin_edges wm azw nomed fitVar izbin) tbl

/-- `compute_mean_pk1d` (aggregation part): initialize the
`nbins_z * nbins_k` rows and run `fill_average_pk_redshift` over every
redshift bin. -/
def compute_mean_pk1d (samples : List Sample) (z_array : List ℚ)
    (zbin_edges kbin_edges : List ℚ) (wm : String) (azw nomed : Bool)
    (fitVar : List ℚ → List ℚ → ℚ → ℚ) : Except String (List MeanRow) :=
  let nbins_z := zbin_edges.length - 1
  let nbins_k := kbin_edges.length - 1
  (List.range nbins_z).foldlM
    (fill_average_pk_redshift samples z_array zbin_edges kbin_edges wm azw nomed fitVar)
    (List.replicate (nbins_z * nbins_k) default)

/-! ## compute_cov -/

/-- Accumulation step of the first covariance loop: add `p.2` to the sum
and 1 to the pair count at flat index `p.1`. -/
def accStep (st : (ℕ → ℚ) × (ℕ → ℕ)) (p : ℕ × ℚ) : (ℕ → ℚ) × (ℕ → ℕ) :=
  (fun i => if i = p.1 then st.1 i + p.2 else st.1 i,
   fun i => if i = p.1 then st.2 i + 1 else st.2 i)

/-- The updates generated by one sub-forest group: for every positional
pair `ipk ≤ ipk2` whose two samples both carry a k-bin index (not -1,
modelled as `Option ℕ`), the product of their values is accumulated at
flat index `nbins_k * ikbin + ikbin2`. -/
def cov_updates (nbins_k : ℕ) (g : List (Option ℕ × ℚ)) : List (ℕ × ℚ) :=
  (List.range g.length).bind (fun ipk =>
    match (g.getD ipk (none, 0)).1 with
    | none => []
    | some ikbin =>
      (List.range' ipk (g.length - ipk)).filterMap (fun ipk2 =>
        match (g.getD ipk2 (none, 0)).1 with
        | none => none
        | some ikbin2 =>
          some (nbins_k * ikbin + ikbin2, (g.getD ipk (none, 0)).2 * (g.getD ipk2 (none, 0)).2)))

/-- First loop of `compute_cov`: accumulate sums and pair counts over all
sub-forest groups. -/
def cov_accum (nbins_k : ℕ) (groups : List (List (Option ℕ × ℚ))) :
    (ℕ → ℚ) × (ℕ → ℕ) :=
  (groups.bind (cov_updates nbins_k)).foldl accStep (fun _ => 0, fun _ => 0)

/-- Normalization of one upper-triangle cell, second loop of
`compute_cov`: `((sum / n) - mean * mean') / n`; a zero pair count gives
`0/0`, i.e. NaN (the sum at such a cell is necessarily 0). -/
def normCell (s : ℚ) (n : ℕ) (m1 m2 : ℚ) : Option ℚ :=
  if n = 0 then none else some ((s / n - m1 * m2) / n)

/-- The four arrays returned by `compute_cov`, as functions of the flat
index `nbins_k * ikbin + ikbin2`. -/
structure CovOut where
  zbin : ℕ → ℚ
  index_zbin : ℕ → ℕ
  n : ℕ → ℕ
  cov : ℕ → Option ℚ

/-- `compute_cov` for one redshift bin.  A bin with no chunks yields NaN
covariances and zero pair counts.  Otherwise the first loop accumulates
pairwise products per sub-forest group and the second loop computes every
upper-triangle entry (row ≤ column) from the accumulated sum, pair count
and the two bin means of `mean_p1d_table`, then mirrors it to the
lower-triangle entry; `meanPk` is the `meanPk` column of the mean table,
indexed by `nbins_k * izbin + ikbin`. -/
def compute_cov (meanPk : ℕ → ℚ) (zbin_centers : ℕ → ℚ) (n_chunks : ℕ → ℕ)
    (nbins_k izbin : ℕ) (groups : List (List (Option ℕ × ℚ))) : CovOut :=
  if n_chunks izbin = 0 then
    { zbin := fun _ => zbin_centers izbin
      index_zbin := fun _ => izbin
      n := fun _ => 0
      cov := fun _ => none }
  else
    let acc := cov_accum nbins_k groups
    let upper := fun r c =>
      normCell (acc.1 (nbins_k * r + c)) (acc.2 (nbins_k * r + c))
        (meanPk (nbins_k * izbin + r)) (meanPk (nbins_k * izbin + c))
    { zbin := fun _ => zbin_centers izbin
      index_zbin := fun _ => izbin
      n := fun idx =>
        if idx / nbins_k ≤ idx % nbins_k then acc.2 (nbins_k * (idx / nbins_k) + idx % nbins_k)
        else acc.2 (nbins_k * (idx % nbins_k) + idx / nbins_k)
      cov := fun idx =>
        if idx / nbins_k ≤ idx % nbins_k then upper (idx / nbins_k) (idx % nbins_k)
        else upper (idx % nbins_k) (idx / nbins_k) }

/-- The positional pairs `ipk ≤ ipk2` of one group. -/
def pair_indices (g : List (Option ℕ × ℚ)) : List (ℕ × ℕ) :=
  (List.range g.length).bind (fun ipk =>
    (List.range' ipk (g.length - ipk)).map (fun ipk2 => (ipk, ipk2)))

/-- The within-group sample pairs contributing to cell `(j, j')`. -/
def pair_sel (g : List (Option ℕ × ℚ)) (j j' : ℕ) : List (ℕ × ℕ) :=
  (pair_indices g).filter (fun p =>
    decide ((g.getD p.1 (none, 0)).1 = some j) &&
    decide ((g.getD p.2 (none, 0)).1 = some j'))

/-- Number of sample pairs of cell `(j, j')` contributed by all groups. -/
def pair_count_all (groups : List (List (Option ℕ × ℚ))) (j j' : ℕ) : ℕ :=
  (groups.map (fun g => (pair_sel g j j').length)).sum

/-- Sum of products of the sample pairs of cell `(j, j')` over all groups. -/
def pair_sum_all (groups : List (List (Option ℕ × ℚ))) (j j' : ℕ) : ℚ :=
  (groups.map (fun g =>
    (((pair_sel g j j').map
      (fun p => (g.getD p.1 (none, 0)).2 * (g.getD p.2 (none, 0)).2)).sum))).sum

/-- Boolean guard: a sample's k-bin index is either -1 (`none`) or a valid
bin below `nbins_k` (which `k_index` guarantees). -/
def binOk (nbins_k : ℕ) (o : Option ℕ) : Bool :=
  match o with
  | none => true
  | some b => decide (b < nbins_k)

/-- Success test for the embedded run results. -/
def exceptIsOk {α : Type} (x : Except String α) : Bool :=
  match x with
  | .ok _ => true
  | .error _ => false

/-- Modelled from the spec: the textbook unbiased sample variance
(ddof = 1) of a list of real samples. -/
def sample_var_unbiased (vals : List ℚ) : ℚ :=
  (vals.map (fun x => (x - vals.sum / vals.length) ^ 2)).sum / ((vals.length : ℚ) - 1)

/-- The five statistics columns of a row agree with those of another row
(used to state that an empty cell leaves its statistics untouched). -/
def statsPreserved (r r0 : MeanRow) : Prop :=
  r.meanv = r0.meanv ∧ r.errv = r0.errv ∧ r.minv = r0.minv ∧
  r.maxv = r0.maxv ∧ r.medv = r0.medv

/-! ## Helper lemmas -/

theorem reduceOption_map_some (l : List ℚ) : (l.map some).reduceOption = l := by
  induction l with
  | nil => rfl
  | cons x xs ih => simp [List.reduceOption_cons_of_some, ih]

theorem any_isNone_map_some (l : List ℚ) :
    (l.map some).any (fun x => x.isNone) = false := by
  induction l with
  | nil => rfl
  | cons x xs ih => simp [ih]

theorem npNansum_all_zero (pk : List (Option ℚ)) (h : ∀ x ∈ pk, x = some 0) :
    npNansum pk = 0 := by
  unfold npNansum
  apply List.sum_eq_zero
  intro x hx
  rcases List.mem_map.mp hx with ⟨y, hy, rfl⟩
  rw [h y hy]
  rfl

/-! ## Claim C9 -/

/-- Claim C9, as stated, is false: the recomputation of the clean-power
column is triggered by `nansum(Pk) == 0`, not by "identically zero".  The
supplied column `[1, -1]` is not identically zero, yet its nan-ignoring
sum is 0, so `read_pk1d_pk` overwrites it with the derived values
`(raw - noise) / cor_reso = [2, 2]`. -/
theorem C9_counterexample :
    read_pk1d_pk [some 1, some (-1)] [some 2, some 2] [some 0, some 0] [some 1, some 1]
      = [some 2, some 2] ∧
    ¬ (∀ x ∈ ([some 1, some (-1)] : List (Option ℚ)), x = some 0) ∧
    ([some 2, some 2] : List (Option ℚ)) ≠ [some 1, some (-1)] := by
  refine ⟨?_, ?_, by norm_num⟩
  · norm_num [read_pk1d_pk, npNansum, derivedPk, List.zipWith3]
  · intro h
    have := h (some 1) (by simp)
    simp at this

/-- Claim C9, amended: in `read_pk1d`, the `Pk` column is recomputed as
`(Pk_raw - Pk_noise) / cor_reso` exactly when the nan-ignoring sum of the
supplied column is zero (in particular whenever it is identically zero);
a supplied column with non-zero nan-ignoring sum is kept unchanged. -/
theorem C9_amended (pk pk_raw pk_noise cor_reso : List (Option ℚ)) :
    (npNansum pk = 0 →
      read_pk1d_pk pk pk_raw pk_noise cor_reso = derivedPk pk_raw pk_noise cor_reso) ∧
    (npNansum pk ≠ 0 → read_pk1d_pk pk pk_raw pk_noise cor_reso = pk) ∧
    ((∀ x ∈ pk, x = some 0) →
      read_pk1d_pk pk pk_raw pk_noise cor_reso = derivedPk pk_raw pk_noise cor_reso) := by
  refine ⟨fun h => ?_, fun h => ?_, fun h => ?_⟩
  · simp [read_pk1d_pk, h]
  · simp [read_pk1d_pk, h]
  · simp [read_pk1d_pk, npNansum_all_zero pk h]

/-- Witness for C9: a chunk whose supplied column is identically zero gets
the derived values, NaN included. -/
theorem C9_witness :
    read_pk1d_pk [some 0, some 0] [some 3, none] [some 1, some 1] [some 1, some 1]
      = [some 2, none] := by
  have h := (C9_amended [some 0, some 0] [some 3, none] [some 1, some 1] [some 1, some 1]).2.2
    (by intro x hx; simp at hx; simp [hx])
  rw [h]
  norm_num [derivedPk, List.zipWith3]

/-! ## Claim C1 -/

theorem foldl_sel_spec (p : ℕ → Bool) (l : List ℕ) (acc : ℤ) :
    ((l.foldl (fun a i => if p i then (i : ℤ) else a) acc = acc ∨
      ∃ i ∈ l, p i = true ∧ l.foldl (fun a i => if p i then (i : ℤ) else a) acc = i) ∧
     ((∃ i ∈ l, p i = true) →
       ∃ i ∈ l, p i = true ∧ l.foldl (fun a i => if p i then (i : ℤ) else a) acc = i)) := by
  induction l generalizing acc with
  | nil => exact ⟨Or.inl rfl, by rintro ⟨i, hi, -⟩; simp at hi⟩
  | cons a l ih =>
    constructor
    · rcases (ih (if p a then (a : ℤ) else acc)).1 with h | ⟨i, hi, hp, hr⟩
      · by_cases hpa : p a = true
        · right
          refine ⟨a, by simp, hpa, ?_⟩
          simp only [List.foldl_cons]
          simp only [hpa, if_true] at h ⊢
          exact h
        · left
          simp only [List.foldl_cons]
          rw [h]
          simp [hpa]
      · right
        exact ⟨i, by simp [hi], hp, by simp only [List.foldl_cons]; exact hr⟩
    · rintro ⟨i, hi, hp⟩
      rcases List.mem_cons.mp hi with rfl | hil
      · by_cases hl : ∃ j ∈ l, p j = true
        · rcases (ih (if p i then (i : ℤ) else acc)).2 hl with ⟨j, hj, hpj, hr⟩
          exact ⟨j, by simp [hj], hpj, by simp only [List.foldl_cons]; exact hr⟩
        · rcases (ih (if p i then (i : ℤ) else acc)).1 with h | ⟨j, hj, hpj, hr⟩
          · refine ⟨i, by simp, hp, ?_⟩
            simp only [List.foldl_cons]
            rw [h]
            simp [hp]
          · exact absurd ⟨j, hj, hpj⟩ hl
      · rcases (ih (if p a then (a : ℤ) else acc)).2 ⟨i, hil, hp⟩ with ⟨j, hj, hpj, hr⟩
        exact ⟨j, by simp [hj], hpj, by simp only [List.foldl_cons]; exact hr⟩

/-- Claim C1, as stated, is false: the spec's half-open convention makes
the sample with redshift exactly on the lower z edge (z = zedge[0] = 1)
a member of cell (0,0), but the selection of `fill_average_pk_redshift`
uses a strict lower-edge comparison and excludes it. -/
theorem C1_counterexample :
    spec_member [1, 2] [0, 1] 0 0 1 (1 / 2) ∧
    select_zk [1, 2] [0, 1] 0 0 1 (1 / 2) = false := by
  constructor
  · refine ⟨?_, ?_, ?_, ?_⟩ <;> norm_num [List.getD]
  · norm_num [select_zk, List.getD]

/-- Claim C1, amended: both the aggregation selection and the covariance
k-index assignment use fully open intervals — a sample belongs to cell
(i,j) iff `zedge[i] < z < zedge[i+1]` and `kedge[j] < k < kedge[j+1]`,
both edges excluded; the k condition of the selection is exactly the
per-bin test of `k_index`, and the `k_index` value, when assigned (not
-1), always points to a bin whose open interval contains the sample's
wavenumber. -/
theorem C1_amended (zbin_edges kbin_edges : List ℚ) (izbin ikbin : ℕ) (z kq : ℚ) :
    (select_zk zbin_edges kbin_edges izbin ikbin z kq = true ↔
      (zbin_edges.getD izbin 0 < z ∧ z < zbin_edges.getD (izbin + 1) 0 ∧
       kbin_edges.getD ikbin 0 < kq ∧ kq < kbin_edges.getD (ikbin + 1) 0)) ∧
    (select_zk zbin_edges kbin_edges izbin ikbin z kq = true →
      k_index_select kbin_edges ikbin kq = true) ∧
    (k_index_select kbin_edges ikbin kq = true ↔
      (kbin_edges.getD ikbin 0 < kq ∧ kq < kbin_edges.getD (ikbin + 1) 0)) ∧
    (0 ≤ k_index_of kbin_edges kq ↔
      ∃ j, j < kbin_edges.length - 1 ∧ k_index_select kbin_edges j kq = true) ∧
    (∀ j : ℕ, k_index_of kbin_edges kq = (j : ℤ) →
      k_index_select kbin_edges j kq = true) := by
  refine ⟨?_, ?_, ?_, ?_, ?_⟩
  · simp only [select_zk, Bool.and_eq_true, decide_eq_true_eq]
    tauto
  · intro h
    simp only [select_zk, Bool.and_eq_true, decide_eq_true_eq] at h
    simp only [k_index_select, Bool.and_eq_true, decide_eq_true_eq]
    exact ⟨h.1.2, h.2⟩
  · simp [k_index_select, and_comm]
  · constructor
    · intro h
      rcases (foldl_sel_spec (fun i => k_index_select kbin_edges i kq)
          (List.range (kbin_edges.length - 1)) (-1)).1 with heq | ⟨i, hi, hp, hr⟩
      · rw [k_index_of] at h
        rw [heq] at h
        norm_num at h
      · exact ⟨i, List.mem_range.mp hi, hp⟩
    · rintro ⟨j, hj, hp⟩
      rcases (foldl_sel_spec (fun i => k_index_select kbin_edges i kq)
          (List.range (kbin_edges.length - 1)) (-1)).2
          ⟨j, List.mem_range.mpr hj, hp⟩ with ⟨i, -, -, hr⟩
      rw [k_index_of, hr]
      exact Int.ofNat_nonneg i
  · intro j hj
    rcases (foldl_sel_spec (fun i => k_index_select kbin_edges i kq)
        (List.range (kbin_edges.length - 1)) (-1)).1 with heq | ⟨i, -, hp, hr⟩
    · rw [k_index_of] at hj
      rw [heq] at hj
      exfalso
      omega
    · rw [k_index_of] at hj
      rw [hr] at hj
      have : i = j := by exact_mod_cast hj
      rwa [this] at hp

/-- Witness for C1: with edges z = [1,2], k = [0,1], the interior sample
(z, k) = (3/2, 1/2) is selected into cell (0,0) and `k_index` assigns it
bin 0. -/
theorem C1_witness :
    select_zk [1, 2] [0, 1] 0 0 (3 / 2) (1 / 2) = true ∧
    k_index_select [0, 1] 0 (1 / 2) = true ∧
    0 ≤ k_index_of [0, 1] (1 / 2) := by
  have h := C1_amended [1, 2] [0, 1] 0 0 (3 / 2) (1 / 2)
  have hsel : select_zk [1, 2] [0, 1] 0 0 (3 / 2) (1 / 2) = true := by
    rw [h.1]
    refine ⟨?_, ?_, ?_, ?_⟩ <;> norm_num [List.getD]
  have hks := h.2.1 hsel
  refine ⟨hsel, hks, ?_⟩
  rw [h.2.2.2.1]
  exact ⟨0, by norm_num, hks⟩

/-! ## Claim C3 -/

/-- Claim C3: with `no_weights` and redshift weighting off, the reported
mean of a non-empty cell (at least two members, NaN-free) is the plain
arithmetic mean, and the squared reported error — population std divided
by `sqrt(N-1)`, squared — equals the textbook unbiased sample variance
(ddof = 1) divided by `N`, i.e. the squared unbiased standard error of
the mean. -/
theorem C3_theorem (vals : List ℚ) (h : 2 ≤ vals.length) :
    no_weights_stats (vals.map some) =
      (some (vals.sum / vals.length), some (sample_var_unbiased vals / vals.length)) := by
  have hlen : (vals.map some).length = vals.length := List.length_map vals some
  have hanyf : (vals.map some).any (fun x => x.isNone) = false := any_isNone_map_some vals
  have hred : (vals.map some).reduceOption = vals := reduceOption_map_some vals
  have hlz : ¬ ((vals.map some).length = 0 ∨
      ((vals.map some).any fun x => x.isNone) = true) := by
    push_neg
    refine ⟨by rw [hlen]; omega, by rw [hanyf]; simp⟩
  have h2 : ¬ (vals.map some).length ≤ 1 := by rw [hlen]; omega
  have hm : npMean (vals.map some) = some (vals.sum / vals.length) := by
    unfold npMean
    rw [if_neg hlz, hred, hlen]
  have hv : npVar (vals.map some) =
      some ((vals.map (fun x => (x - vals.sum / (vals.length : ℚ)) ^ 2)).sum /
        (vals.length : ℚ)) := by
    unfold npVar
    rw [if_neg hlz]
    simp only [hred]
  unfold no_weights_stats
  rw [hm, hv, if_neg h2]
  simp only [Option.map_some, hlen]
  refine Prod.ext rfl ?_
  simp only
  unfold sample_var_unbiased
  rw [Option.map_some']
  congr 1
  rw [div_div, div_div, mul_comm]

/-- Witness for C3: cell members [1, 2, 3] give mean 2 and squared error
1/3 (= unbiased variance 1 divided by N = 3). -/
theorem C3_witness :
    no_weights_stats [some 1, some 2, some 3] = (some 2, some (1 / 3)) := by
  have h := C3_theorem [1, 2, 3] (by norm_num)
  simp only [List.map] at h
  rw [h]
  norm_num [sample_var_unbiased]

/-! ## Claim C7 -/

/-- Claim C7: the `simple_snr` branch raises its fatal `RuntimeError`
exactly when some selected member has SNR ≤ 1 (so SNR exactly 1
triggers it), and that error is the only error the branch ever raises. -/
theorem C7_theorem (vals : List (Option ℚ)) (snrs : List ℚ) :
    ((∃ e, simple_snr_stats vals snrs = .error e) ↔ ∃ s ∈ snrs, s ≤ 1) ∧
    (∀ e, simple_snr_stats vals snrs = .error e →
      e = "Cannot add weights with SNR<=1.") := by
  by_cases hc : 0 < (snrs.filter (fun s => decide (s ≤ 1))).length
  · have hrun : simple_snr_stats vals snrs = .error "Cannot add weights with SNR<=1." := by
      unfold simple_snr_stats
      rw [if_pos hc]
    have hex : ∃ s ∈ snrs, s ≤ 1 := by
      have hnil : List.filter (fun s => decide (s ≤ 1)) snrs ≠ [] := by
        intro hnil
        rw [hnil] at hc
        simp at hc
      rcases List.exists_mem_of_ne_nil _ hnil with ⟨s, hs⟩
      have := List.mem_filter.mp hs
      exact ⟨s, this.1, by simpa using this.2⟩
    refine ⟨⟨fun _ => hex, fun _ => ⟨_, hrun⟩⟩, fun e he => ?_⟩
    rw [hrun] at he
    exact (Except.error.inj he).symm
  · have hnotex : ¬ ∃ s ∈ snrs, s ≤ 1 := by
      rintro ⟨s, hs, hle⟩
      have hmem : s ∈ List.filter (fun s => decide (s ≤ 1)) snrs :=
        List.mem_filter.mpr ⟨hs, by simpa using hle⟩
      exact hc (List.length_pos.mpr (List.ne_nil_of_mem hmem))
    have hok : ∃ r, simple_snr_stats vals snrs = .ok r := by
      unfold simple_snr_stats
      rw [if_neg hc]
      dsimp only
      cases h' : npAverage vals (snrs.map (fun s => if 4 < s then (9 : ℚ) else (s - 1) ^ 2)) with
      | none => exact ⟨(none, none), rfl⟩
      | some m => exact ⟨_, rfl⟩
    rcases hok with ⟨r, hr⟩
    refine ⟨⟨fun ⟨e, he⟩ => ?_, fun hx => absurd hx hnotex⟩, fun e he => ?_⟩
    · rw [hr] at he
      exact absurd he (by simp)
    · rw [hr] at he
      exact absurd he (by simp)

/-- Witness for C7: a member with SNR exactly 1 triggers the fatal error;
raising the SNR to 2 removes it. -/
theorem C7_witness :
    (∃ e, simple_snr_stats [some 5] [1] = .error e) ∧
    ¬ (∃ e, simple_snr_stats [some 5] [2] = .error e) := by
  constructor
  · exact (C7_theorem [some 5] [1]).1.mpr ⟨1, by simp, le_refl 1⟩
  · intro h
    rcases (C7_theorem [some 5] [2]).1.mp h with ⟨s, hs, hle⟩
    simp at hs
    rw [hs] at hle
    norm_num at hle

/-! ## Claim C6 -/

/-- Claim C6, as stated, is false: only the `fit_snr` branch excludes NaN
members.  In the `no_weights` branch a cell whose members are [1, NaN]
reports a NaN mean, although the mean of the non-NaN members is 1 —
the NaN propagates instead of being excluded. -/
theorem C6_counterexample :
    (no_weights_stats [some 1, none]).1 = none ∧ npMean [some 1] = some 1 := by
  constructor
  · simp [no_weights_stats, npMean]
  · have hro : ([some 1] : List (Option ℚ)).reduceOption = [1] := rfl
    norm_num [npMean, hro]

/-- Claim C6, amended: the NaN-exclusion step exists only in the
`fit_snr` branch — there the values used for weights and statistics are
exactly the non-NaN members (and their SNRs).  In the `no_weights` and
`simple_snr` branches a NaN member propagates: the reported mean and
error of the cell are NaN. -/
theorem C6_amended :
    (∀ (snrs : List ℚ) (vals : List (Option ℚ)), snrs.length = vals.length →
      (fit_snr_filter snrs vals).2 = vals.reduceOption) ∧
    (∀ vals : List (Option ℚ), none ∈ vals →
      (no_weights_stats vals).1 = none ∧ (no_weights_stats vals).2 = none) ∧
    (∀ (vals : List (Option ℚ)) (snrs : List ℚ), none ∈ vals →
      (∀ s ∈ snrs, ¬ s ≤ 1) →
      simple_snr_stats vals snrs = .ok (none, none)) := by
  refine ⟨?_, ?_, ?_⟩
  · intro snrs
    induction snrs with
    | nil =>
      intro vals hlen
      have : vals = [] := List.eq_nil_of_length_eq_zero hlen.symm
      subst this
      rfl
    | cons s ss ih =>
      intro vals hlen
      cases vals with
      | nil => simp at hlen
      | cons v vs =>
        have hlen' : ss.length = vs.length := by simpa using hlen
        cases v with
        | none =>
          simp only [fit_snr_filter, List.zip_cons_cons, List.filterMap_cons,
            Option.map_none, List.reduceOption_cons_of_none]
          exact ih vs hlen'
        | some x =>
          have ihx := ih vs hlen'
          simp only [fit_snr_filter, List.zip_cons_cons, List.filterMap_cons,
            Option.map_some, List.reduceOption_cons_of_some, List.unzip_snd] at ihx ⊢
          simp [ihx]
  · intro vals hmem
    have hany : vals.any (fun x => x.isNone) = true := by
      rw [List.any_eq_true]
      exact ⟨none, hmem, rfl⟩
    constructor
    · simp [no_weights_stats, npMean, hany]
    · simp only [no_weights_stats, npVar, hany]
      simp
  · intro vals snrs hmem hsnr
    have hflt : (snrs.filter (fun s => decide (s ≤ 1))).length = 0 := by
      rw [List.length_eq_zero]
      rw [List.filter_eq_nil]
      intro s hs
      simpa using hsnr s hs
    have hany : vals.any (fun x => x.isNone) = true := by
      rw [List.any_eq_true]
      exact ⟨none, hmem, rfl⟩
    unfold simple_snr_stats
    rw [if_neg (by omega)]
    dsimp only
    have hav : npAverage vals (snrs.map (fun s => if 4 < s then (9 : ℚ) else (s - 1) ^ 2)) = none := by
      unfold npAverage
      rw [if_pos (Or.inr hany)]
    rw [hav]

/-- Witness for C6 (amended): the fit_snr filter keeps exactly the
non-NaN member of [2, NaN]; the no_weights error for [1, NaN] is NaN; the
simple_snr branch reports NaN statistics for [1, NaN] with valid SNR 5. -/
theorem C6_witness :
    (fit_snr_filter [3, 4] [some 2, none]).2 = [2] ∧
    (no_weights_stats [some 1, none]).2 = none ∧
    simple_snr_stats [some 1, none] [5, 5] = .ok (none, none) := by
  refine ⟨?_, (C6_amended.2.1 [some 1, none] (by simp)).2, ?_⟩
  · have h := C6_amended.1 [3, 4] [some 2, none] (by simp)
    rw [h]
    simp [List.reduceOption]
  · exact C6_amended.2.2 [some 1, none] [5, 5] (by simp)
      (by intro s hs; simp at hs; rw [hs]; norm_num)

/-! ## Claim C10 -/

theorem find?_map_keep (cols : List (String × List ℚ))
    (f : String × List ℚ → String × List ℚ) (hf : ∀ col, (f col).1 = col.1)
    (name : String) :
    (cols.map f).find? (fun col => col.1 = name) =
      (cols.find? (fun col => col.1 = name)).map f := by
  induction cols with
  | nil => rfl
  | cons c cs ih =>
    by_cases h : c.1 = name
    · simp [List.find?_cons, hf c, h]
    · simp [List.find?_cons, hf c, h, ih]

theorem colVal_velunits (lya sc : ℚ) (fz : List ℚ)
    (cols : List (String × List ℚ)) (name : String) :
    colVal (velunits_convert lya sc true fz cols) name =
      (colVal cols name).map (fun v =>
        if name = "k" then
          List.zipWith (fun x f => x * f) v (fz.map (fun z => lya * (1 + z) / sc))
        else if name ≠ "forest_id" ∧ name ≠ "sub_forest_id" ∧ hasPkSub name.data then
          List.zipWith (fun x f => x / f) v (fz.map (fun z => lya * (1 + z) / sc))
        else v) := by
  unfold velunits_convert colVal
  rw [if_pos rfl]
  rw [find?_map_keep _ _ (fun col => by split_ifs <;> rfl)]
  cases hfind : cols.find? (fun col => col.1 = name) with
  | none => rfl
  | some c =>
    have hc : c.1 = name := by
      have := List.find?_some hfind
      simpa using this
    simp only [Option.map_some']
    rw [← hc]
    split_ifs <;> rfl

/-- Claim C10: with `velunits` false no column changes; with it true,
exactly the column `k` is multiplied by the per-row factor
`lya * (1 + forest_z) / speed_light`, the columns whose names contain the
substring "Pk" are divided by it, and every other column — including
`Delta2`, `cor_reso`, `forest_z`, `forest_snr` and the identifier columns
— is left unchanged. -/
theorem C10_theorem (lya sc : ℚ) (velunits : Bool) (fz : List ℚ)
    (cols : List (String × List ℚ)) :
    (velunits = false → velunits_convert lya sc velunits fz cols = cols) ∧
    (velunits = true →
      (colVal (velunits_convert lya sc velunits fz cols) "k" =
        (colVal cols "k").map (fun v =>
          List.zipWith (fun x f => x * f) v (fz.map (fun z => lya * (1 + z) / sc)))) ∧
      (∀ name ∈ ["Pk", "Pk_raw", "Pk_noise", "Pk_diff", "Pk_norescor", "Pk_nonoise",
          "Pk_noraw", "Pk_noise_miss", "Pk_noraw_miss"],
        colVal (velunits_convert lya sc velunits fz cols) name =
          (colVal cols name).map (fun v =>
            List.zipWith (fun x f => x / f) v (fz.map (fun z => lya * (1 + z) / sc)))) ∧
      (∀ name ∈ ["Delta2", "cor_reso", "forest_z", "forest_snr", "forest_id",
          "sub_forest_id"],
        colVal (velunits_convert lya sc velunits fz cols) name = colVal cols name)) := by
  constructor
  · intro h
    subst h
    rfl
  · intro h
    subst h
    refine ⟨?_, ?_, ?_⟩
    · rw [colVal_velunits]
      cases colVal cols "k" with
      | none => rfl
      | some v => simp
    · intro name hname
      rw [colVal_velunits]
      cases colVal cols name with
      | none => rfl
      | some v =>
        fin_cases hname <;>
          simp only [Option.map_some'] <;>
          rw [if_neg (by decide), if_pos (by refine ⟨by decide, by decide, by decide⟩)]
    · intro name hname
      rw [colVal_velunits]
      cases colVal cols name with
      | none => rfl
      | some v =>
        fin_cases hname <;>
          simp only [Option.map_some'] <;>
          rw [if_neg (by decide), if_neg (by decide)]

/-- Witness for C10: with a unit conversion factor of 1 (lya = 1,
speed_light = 1, forest_z = [0]), `k` and `Pk` keep their numeric values
through the (applied) conversion and `Delta2` is untouched. -/
theorem C10_witness :
    colVal (velunits_convert 1 1 true [0] [("k", [2]), ("Pk", [4]), ("Delta2", [5])]) "k"
      = some [2 * (1 * (1 + 0) / 1)] ∧
    colVal (velunits_convert 1 1 true [0] [("k", [2]), ("Pk", [4]), ("Delta2", [5])]) "Pk"
      = some [4 / (1 * (1 + 0) / 1)] ∧
    colVal (velunits_convert 1 1 true [0] [("k", [2]), ("Pk", [4]), ("Delta2", [5])]) "Delta2"
      = some [5] := by
  have h := (C10_theorem 1 1 true [0] [("k", [2]), ("Pk", [4]), ("Delta2", [5])]).2 rfl
  refine ⟨?_, ?_, ?_⟩
  · rw [h.1]
    rfl
  · rw [h.2.1 "Pk" (by simp)]
    rfl
  · rw [h.2.2 "Delta2" (by simp)]
    rfl

/-! ## Claims C4 and C5: characterization of the covariance accumulation -/

theorem foldl_accStep_char (l : List (ℕ × ℚ)) (st : (ℕ → ℚ) × (ℕ → ℕ)) (i : ℕ) :
    (l.foldl accStep st).1 i =
      st.1 i + ((l.filter (fun p => p.1 = i)).map (fun p => p.2)).sum ∧
    (l.foldl accStep st).2 i =
      st.2 i + (l.filter (fun p => p.1 = i)).length := by
  induction l generalizing st with
  | nil => simp
  | cons p ps ih =>
    rw [List.foldl_cons]
    rcases ih (accStep st p) with ⟨ih1, ih2⟩
    by_cases h : p.1 = i
    · constructor
      · rw [ih1, List.filter_cons, if_pos (by simpa using h)]
        simp only [accStep, if_pos h.symm, List.map_cons, List.sum_cons]
        ring
      · rw [ih2, List.filter_cons, if_pos (by simpa using h)]
        simp only [accStep, if_pos h.symm, List.length_cons]
        omega
    · constructor
      · rw [ih1, List.filter_cons, if_neg (by simpa using h)]
        simp only [accStep, if_neg (Ne.symm h)]
      · rw [ih2, List.filter_cons, if_neg (by simpa using h)]
        simp only [accStep, if_neg (Ne.symm h)]

theorem filterMap_bind_helper {α β γ : Type} (l : List α) (f : α → List β)
    (g : β → Option γ) :
    (l.bind f).filterMap g = l.bind (fun a => (f a).filterMap g) := by
  induction l with
  | nil => rfl
  | cons a as ih => simp [List.filterMap_append, ih]

theorem filter_bind_helper {α β : Type} (l : List α) (f : α → List β) (p : β → Bool) :
    (l.bind f).filter p = l.bind (fun a => (f a).filter p) := by
  induction l with
  | nil => rfl
  | cons a as ih => simp [List.filter_append, ih]

theorem sum_bind_helper {α : Type} (l : List α) (f : α → List ℚ) :
    (l.bind f).sum = (l.map (fun a => (f a).sum)).sum := by
  induction l with
  | nil => rfl
  | cons a as ih => simp [List.sum_append, ih]

theorem length_bind_helper {α β : Type} (l : List α) (f : α → List β) :
    (l.bind f).length = (l.map (fun a => (f a).length)).sum := by
  induction l with
  | nil => rfl
  | cons a as ih => simp [ih]

theorem map_bind_helper {α β γ : Type} (l : List α) (f : α → List β) (m : β → γ) :
    (l.bind f).map m = l.bind (fun a => (f a).map m) := by
  induction l with
  | nil => rfl
  | cons a as ih => simp [ih]

theorem bind_congr_helper {α β : Type} (l : List α) (f g : α → List β)
    (h : ∀ a ∈ l, f a = g a) : l.bind f = l.bind g := by
  induction l with
  | nil => rfl
  | cons a as ih =>
    simp only [List.cons_bind]
    rw [h a (by simp)]
    congr 1
    exact ih (fun a ha => h a (by simp [ha]))

theorem filterMap_congr_helper {α β : Type} (l : List α) (f g : α → Option β)
    (h : ∀ a ∈ l, f a = g a) : l.filterMap f = l.filterMap g := by
  induction l with
  | nil => rfl
  | cons a as ih =>
    simp only [List.filterMap_cons]
    rw [h a (by simp), ih (fun a ha => h a (by simp [ha]))]

theorem map_congr_helper {α β : Type} (l : List α) (f g : α → β)
    (h : ∀ a ∈ l, f a = g a) : l.map f = l.map g := by
  induction l with
  | nil => rfl
  | cons a as ih =>
    simp only [List.map_cons]
    rw [h a (by simp), ih (fun a ha => h a (by simp [ha]))]

theorem flat_idx_inj (K b1 b2 j j' : ℕ) (hb2 : b2 < K) (hj' : j' < K)
    (h : K * b1 + b2 = K * j + j') : b1 = j ∧ b2 = j' := by
  have hK : 0 < K := lt_of_le_of_lt (Nat.zero_le _) hj'
  have h1 : (K * b1 + b2) / K = b1 := by
    rw [Nat.mul_add_div hK, Nat.div_eq_of_lt hb2]
    omega
  have h2 : (K * j + j') / K = j := by
    rw [Nat.mul_add_div hK, Nat.div_eq_of_lt hj']
    omega
  have hb : b1 = j := by rw [← h1, ← h2, h]
  refine ⟨hb, ?_⟩
  subst hb
  omega


theorem cov_updates_eq (K : ℕ) (g : List (Option ℕ × ℚ)) :
    cov_updates K g = (pair_indices g).filterMap (fun p =>
      match (g.getD p.1 (none, 0)).1, (g.getD p.2 (none, 0)).1 with
      | some b1, some b2 =>
        some (K * b1 + b2, (g.getD p.1 (none, 0)).2 * (g.getD p.2 (none, 0)).2)
      | _, _ => none) := by
  unfold cov_updates pair_indices
  rw [filterMap_bind_helper]
  apply bind_congr_helper
  intro i1 hi1
  rw [List.filterMap_map]
  cases hb1 : (g.getD i1 (none, 0)).1 with
  | none =>
    symm
    rw [List.filterMap_eq_nil]
    intro i2 hi2
    cases hgi2 : (g.getD i2 (none, 0)).1 with
    | none =>
      rw [List.getD_eq_getElem?_getD] at hb1 hgi2
      simp [Function.comp, hb1, hgi2]
    | some b2 =>
      rw [List.getD_eq_getElem?_getD] at hb1 hgi2
      simp [Function.comp, hb1, hgi2]
  | some b1 =>
    apply filterMap_congr_helper
    intro i2 hi2
    cases hgi2 : (g.getD i2 (none, 0)).1 with
    | none =>
      rw [List.getD_eq_getElem?_getD] at hb1 hgi2
      simp [Function.comp, hb1, hgi2]
    | some b2 =>
      rw [List.getD_eq_getElem?_getD] at hb1 hgi2
      simp [Function.comp, hb1, hgi2]

theorem pair_indices_bounds (g : List (Option ℕ × ℚ)) (p : ℕ × ℕ)
    (hp : p ∈ pair_indices g) : p.1 < g.length ∧ p.2 < g.length := by
  unfold pair_indices at hp
  rw [List.mem_bind] at hp
  rcases hp with ⟨i1, hi1, hmem⟩
  rw [List.mem_map] at hmem
  rcases hmem with ⟨i2, hi2, rfl⟩
  have h1 : i1 < g.length := List.mem_range.mp hi1
  have h2 := List.mem_range'.mp hi2
  exact ⟨h1, by omega⟩

theorem filter_filterMap_pairs (K j j' : ℕ) (hj' : j' < K)
    (g : List (Option ℕ × ℚ)) (hb : ∀ q ∈ g, binOk K q.1 = true) :
    ∀ l : List (ℕ × ℕ), (∀ p ∈ l, p.1 < g.length ∧ p.2 < g.length) →
      ((l.filterMap (fun p =>
          match (g.getD p.1 (none, 0)).1, (g.getD p.2 (none, 0)).1 with
          | some b1, some b2 =>
            some (K * b1 + b2, (g.getD p.1 (none, 0)).2 * (g.getD p.2 (none, 0)).2)
          | _, _ => none)).filter (fun q => q.1 = K * j + j')).map (fun q => q.2) =
        (l.filter (fun p =>
          decide ((g.getD p.1 (none, 0)).1 = some j) &&
          decide ((g.getD p.2 (none, 0)).1 = some j'))).map
            (fun p => (g.getD p.1 (none, 0)).2 * (g.getD p.2 (none, 0)).2) ∧
      ((l.filterMap (fun p =>
          match (g.getD p.1 (none, 0)).1, (g.getD p.2 (none, 0)).1 with
          | some b1, some b2 =>
            some (K * b1 + b2, (g.getD p.1 (none, 0)).2 * (g.getD p.2 (none, 0)).2)
          | _, _ => none)).filter (fun q => q.1 = K * j + j')).length =
        (l.filter (fun p =>
          decide ((g.getD p.1 (none, 0)).1 = some j) &&
          decide ((g.getD p.2 (none, 0)).1 = some j'))).length := by
  simp only [List.getD_eq_getElem?_getD]
  intro l
  induction l with
  | nil => exact fun _ => ⟨rfl, rfl⟩
  | cons p ps ih =>
    intro hbd
    have hbd2 := (hbd p (by simp)).2
    rcases ih (fun q hq => hbd q (by simp [hq])) with ⟨ihp1, ihp2⟩
    cases hb1 : (g[p.1]?.getD (none, 0)).1 with
    | none =>
      simp [List.filterMap_cons, List.filter_cons, hb1, ihp1, ihp2]
    | some b1 =>
      cases hb2 : (g[p.2]?.getD (none, 0)).1 with
      | none =>
        simp [List.filterMap_cons, List.filter_cons, hb1, hb2, ihp1, ihp2]
      | some b2 =>
        have hmem2 : (g[p.2]?.getD (none, 0)) ∈ g := by
          rw [List.getElem?_eq_getElem hbd2]
          exact List.getElem_mem _
        have hb2K : b2 < K := by
          have hq := hb _ hmem2
          rw [hb2] at hq
          simpa [binOk] using hq
        by_cases hcase : b1 = j ∧ b2 = j'
        · rcases hcase with ⟨rfl, rfl⟩
          simp [List.filterMap_cons, List.filter_cons, hb1, hb2, ihp1, ihp2]
        · have hne : K * b1 + b2 ≠ K * j + j' := fun hco =>
            hcase (flat_idx_inj K b1 b2 j j' hb2K hj' hco)
          by_cases hb1j : b1 = j
          · have hb2j : ¬ b2 = j' := fun hh => hcase ⟨hb1j, hh⟩
            simp [List.filterMap_cons, List.filter_cons, hb1, hb2, hne, hb1j, hb2j,
              ihp1, ihp2]
          · simp [List.filterMap_cons, List.filter_cons, hb1, hb2, hne, hb1j,
              ihp1, ihp2]

theorem cov_accum_char (K : ℕ) (groups : List (List (Option ℕ × ℚ))) (j j' : ℕ)
    (hj' : j' < K)
    (hb : ∀ g ∈ groups, ∀ q ∈ g, binOk K q.1 = true) :
    (cov_accum K groups).1 (K * j + j') = pair_sum_all groups j j' ∧
    (cov_accum K groups).2 (K * j + j') = pair_count_all groups j j' := by
  unfold cov_accum
  rcases foldl_accStep_char (groups.bind (cov_updates K)) (fun _ => 0, fun _ => 0)
    (K * j + j') with ⟨h1, h2⟩
  rw [h1, h2]
  simp only [zero_add]
  rw [filter_bind_helper, map_bind_helper, sum_bind_helper, length_bind_helper]
  constructor
  · unfold pair_sum_all pair_sel
    apply congrArg
    apply map_congr_helper
    intro g hg
    rw [cov_updates_eq]
    exact congrArg List.sum (filter_filterMap_pairs K j j' hj' g (hb g hg) (pair_indices g)
      (fun p hp => pair_indices_bounds g p hp)).1
  · unfold pair_count_all pair_sel
    apply congrArg
    apply map_congr_helper
    intro g hg
    rw [cov_updates_eq]
    exact (filter_filterMap_pairs K j j' hj' g (hb g hg) (pair_indices g)
      (fun p hp => pair_indices_bounds g p hp)).2

/-- Claim C4: for a redshift bin with at least one chunk, every
upper-triangle covariance cell (j ≤ j') equals
`((pair sum / n) - meanPk_j * meanPk_j') / n` — the `⟨xy⟩ - ⟨x⟩⟨y⟩`
estimate divided once more by the pair count `n`, where `n` is the cell's
accumulated within-group pair count; a cell with no pairs is NaN.  For a
redshift bin with zero chunks every cell is NaN with pair count 0 rather
than a division by zero. -/
theorem C4_theorem (K : ℕ) (meanPk zc : ℕ → ℚ) (nch : ℕ → ℕ) (izbin : ℕ)
    (groups : List (List (Option ℕ × ℚ))) (j j' : ℕ)
    (hjj : j ≤ j') (hj' : j' < K)
    (hb : ∀ g ∈ groups, ∀ q ∈ g, binOk K q.1 = true) :
    (nch izbin = 0 →
      (compute_cov meanPk zc nch K izbin groups).cov (K * j + j') = none ∧
      (compute_cov meanPk zc nch K izbin groups).n (K * j + j') = 0) ∧
    (nch izbin ≠ 0 →
      (compute_cov meanPk zc nch K izbin groups).n (K * j + j') =
        pair_count_all groups j j' ∧
      (compute_cov meanPk zc nch K izbin groups).cov (K * j + j') =
        (if pair_count_all groups j j' = 0 then none
         else some ((pair_sum_all groups j j' / (pair_count_all groups j j' : ℚ)
             - meanPk (K * izbin + j) * meanPk (K * izbin + j'))
           / (pair_count_all groups j j' : ℚ)))) := by
  have hK : 0 < K := lt_of_le_of_lt (Nat.zero_le _) hj'
  have hdiv : (K * j + j') / K = j := by
    rw [Nat.mul_add_div hK, Nat.div_eq_of_lt hj']
    omega
  have hmod : (K * j + j') % K = j' := by
    rw [Nat.mul_add_mod]
    exact Nat.mod_eq_of_lt hj'
  rcases cov_accum_char K groups j j' hj' hb with ⟨hc1, hc2⟩
  constructor
  · intro h
    simp [compute_cov, h]
  · intro h
    constructor
    · simp only [compute_cov, if_neg h]
      rw [hdiv, hmod, if_pos hjj]
      exact hc2
    · simp only [compute_cov, if_neg h]
      rw [hdiv, hmod, if_pos hjj]
      unfold normCell
      rw [hc1, hc2]

/-- Claim C5: the covariance block of `compute_cov` is exactly symmetric —
the covariance entry and the pair count at flat position (r, c) equal the
ones at (c, r), for every pair of k bins, in both the populated and the
empty redshift-bin branch, because the lower triangle is copied from the
upper triangle rather than recomputed. -/
theorem C5_theorem (K : ℕ) (meanPk zc : ℕ → ℚ) (nch : ℕ → ℕ) (izbin : ℕ)
    (groups : List (List (Option ℕ × ℚ))) (r c : ℕ) (hr : r < K) (hc : c < K) :
    (compute_cov meanPk zc nch K izbin groups).cov (K * r + c) =
      (compute_cov meanPk zc nch K izbin groups).cov (K * c + r) ∧
    (compute_cov meanPk zc nch K izbin groups).n (K * r + c) =
      (compute_cov meanPk zc nch K izbin groups).n (K * c + r) := by
  have hK : 0 < K := lt_of_le_of_lt (Nat.zero_le _) hc
  have hdiv1 : (K * r + c) / K = r := by
    rw [Nat.mul_add_div hK, Nat.div_eq_of_lt hc]
    omega
  have hmod1 : (K * r + c) % K = c := by
    rw [Nat.mul_add_mod]
    exact Nat.mod_eq_of_lt hc
  have hdiv2 : (K * c + r) / K = c := by
    rw [Nat.mul_add_div hK, Nat.div_eq_of_lt hr]
    omega
  have hmod2 : (K * c + r) % K = r := by
    rw [Nat.mul_add_mod]
    exact Nat.mod_eq_of_lt hr
  by_cases h : nch izbin = 0
  · simp [compute_cov, h]
  · simp only [compute_cov, if_neg h]
    rw [hdiv1, hmod1, hdiv2, hmod2]
    constructor
    · split_ifs with h1 h2 h2
      · have : r = c := le_antisymm h1 h2
        subst this
        rfl
      · rfl
      · rfl
      · omega
    · split_ifs with h1 h2 h2
      · have : r = c := le_antisymm h1 h2
        subst this
        rfl
      · rfl
      · rfl
      · omega

/-- Witness for C4: one sub-forest group with samples in k bins 0 and 1
with values 3 and 5, unit bin means, one chunk in the redshift bin: cell
(0,1) has pair count 1 and covariance ((15 / 1) - 1 * 1) / 1 = 14. -/
theorem C4_witness :
    (compute_cov (fun _ => 1) (fun _ => 0) (fun _ => 1) 2 0
      [[(some 0, 3), (some 1, 5)]]).n (2 * 0 + 1) = 1 ∧
    (compute_cov (fun _ => 1) (fun _ => 0) (fun _ => 1) 2 0
      [[(some 0, 3), (some 1, 5)]]).cov (2 * 0 + 1) = some 14 := by
  have h := (C4_theorem 2 (fun _ => 1) (fun _ => 0) (fun _ => 1) 0
    [[(some 0, 3), (some 1, 5)]] 0 1 (by norm_num) (by norm_num)
    (by intro g hg q hq
        fin_cases hg
        fin_cases hq <;> rfl)).2 (by norm_num)
  have hcount : pair_count_all [[(some 0, 3), (some 1, 5)]] 0 1 = 1 := by rfl
  have hsel : pair_sel [(some 0, 3), (some 1, 5)] 0 1 = [(0, 1)] := by rfl
  have hsum : pair_sum_all [[(some 0, 3), (some 1, 5)]] 0 1 = 15 := by
    unfold pair_sum_all
    rw [List.map_cons, List.map_nil, List.sum_cons, List.sum_nil, hsel]
    norm_num [List.getD]
  constructor
  · rw [h.1, hcount]
  · rw [h.2, hcount, hsum]
    norm_num

/-- Witness for C5: the same concrete covariance run has equal (0,1) and
(1,0) entries and pair counts. -/
theorem C5_witness :
    (compute_cov (fun _ => 1) (fun _ => 0) (fun _ => 1) 2 0
      [[(some 0, 3), (some 1, 5)]]).cov (2 * 0 + 1) =
      (compute_cov (fun _ => 1) (fun _ => 0) (fun _ => 1) 2 0
        [[(some 0, 3), (some 1, 5)]]).cov (2 * 1 + 0) ∧
    (compute_cov (fun _ => 1) (fun _ => 0) (fun _ => 1) 2 0
      [[(some 0, 3), (some 1, 5)]]).n (2 * 0 + 1) =
      (compute_cov (fun _ => 1) (fun _ => 0) (fun _ => 1) 2 0
        [[(some 0, 3), (some 1, 5)]]).n (2 * 1 + 0) :=
  C5_theorem 2 (fun _ => 1) (fun _ => 0) (fun _ => 1) 0
    [[(some 0, 3), (some 1, 5)]] 0 1 (by norm_num) (by norm_num)

/-! ## Claims C2 and C8: table-filling invariants -/

theorem ok_bind_helper {α β : Type} (a : α) (f : α → Except String β) :
    (Except.ok a >>= f) = f a := rfl

theorem error_bind_helper {α β : Type} (e : String) (f : α → Except String β) :
    ((Except.error e : Except String α) >>= f) = Except.error e := rfl

theorem getD_set_ne_helper (l : List MeanRow) (i j : ℕ) (r : MeanRow) (h : i ≠ j) :
    (l.set i r).getD j default = l.getD j default := by
  rw [List.getD_eq_getElem?_getD, List.getD_eq_getElem?_getD, List.getElem?_set_ne h]

theorem getD_set_self_helper (l : List MeanRow) (i : ℕ) (r : MeanRow)
    (h : i < l.length) : (l.set i r).getD i default = r := by
  rw [List.getD_eq_getElem?_getD, List.getElem?_set_self h]
  rfl

theorem getD_replicate_helper (n i : ℕ) :
    (List.replicate n (default : MeanRow)).getD i default = default := by
  rw [List.getD_eq_getElem?_getD]
  rcases lt_or_ge i n with h | h
  · rw [List.getElem?_eq_getElem (by simpa using h)]
    simp [List.getElem_replicate]
  · rw [List.getElem?_eq_none (by simpa using h)]
    rfl

theorem foldlM_ok_steps {α σ : Type} (f : σ → α → Except String σ) :
    ∀ (l : List α) (s t : σ), l.foldlM f s = .ok t →
      ∀ a ∈ l, ∃ s' t', f s' a = .ok t' := by
  intro l
  induction l with
  | nil =>
    intro s t h a ha
    simp at ha
  | cons b bs ih =>
    intro s t h a ha
    rw [List.foldlM_cons] at h
    cases hb : f s b with
    | error e =>
      rw [hb, error_bind_helper] at h
      exact absurd h (by simp)
    | ok t1 =>
      rw [hb, ok_bind_helper] at h
      rcases List.mem_cons.mp ha with rfl | hmem
      · exact ⟨s, t1, hb⟩
      · exact ih t1 t h a hmem

theorem foldlM_ok_of_all {α σ : Type} (f : σ → α → Except String σ) :
    ∀ (l : List α), (∀ s a, a ∈ l → ∃ t, f s a = .ok t) →
      ∀ s, ∃ t, l.foldlM f s = .ok t := by
  intro l
  induction l with
  | nil => exact fun _ s => ⟨s, rfl⟩
  | cons b bs ih =>
    intro h s
    rcases h s b (by simp) with ⟨t1, h1⟩
    rcases ih (fun s a ha => h s a (by simp [ha])) t1 with ⟨t, ht⟩
    exact ⟨t, by rw [List.foldlM_cons, h1, ok_bind_helper, ht]⟩

theorem fill_cell_core_ok {wm : String} {azw nomed : Bool}
    {fitVar : List ℚ → List ℚ → ℚ → ℚ} {zc : ℚ} {izbin index : ℕ}
    {sel : List Sample} {rw : List ℚ} {tbl tbl' : List MeanRow}
    (h : fill_cell_core wm azw nomed fitVar zc izbin index sel rw tbl = .ok tbl') :
    ∃ row : MeanRow, tbl' = tbl.set index row ∧ row.zbin = zc ∧
      row.index_zbin = izbin ∧ row.n = sel.length ∧
      (sel.length = 0 → statsPreserved row (tbl.getD index default)) := by
  simp only [fill_cell_core] at h
  by_cases hsel : sel.length = 0
  · rw [if_pos hsel] at h
    exact ⟨_, (Except.ok.inj h).symm, rfl, rfl, rfl,
      fun _ => ⟨rfl, rfl, rfl, rfl, rfl⟩⟩
  · rw [if_neg hsel] at h
    cases hdisp : weight_dispatch wm azw fitVar (sel.map (fun s => s.value))
        (sel.map (fun s => s.forest_snr)) rw with
    | error e =>
      rw [hdisp] at h
      exact absurd h (by simp)
    | ok stats =>
      rw [hdisp] at h
      exact ⟨_, (Except.ok.inj h).symm, rfl, rfl, rfl, fun h0 => absurd h0 hsel⟩

theorem fill_cell_ok {samples : List Sample} {zbin_edges kbin_edges : List ℚ}
    {wm : String} {azw nomed : Bool} {fitVar : List ℚ → List ℚ → ℚ → ℚ}
    {izbin : ℕ} {tbl tbl' : List MeanRow} {ikbin : ℕ}
    (h : fill_cell samples zbin_edges kbin_edges wm azw nomed fitVar izbin tbl ikbin
      = .ok tbl') :
    ∃ row : MeanRow,
      tbl' = tbl.set ((kbin_edges.length - 1) * izbin + ikbin) row ∧
      row.zbin = zbin_centers_def zbin_edges izbin ∧ row.index_zbin = izbin ∧
      (row.n = 0 → statsPreserved row
        (tbl.getD ((kbin_edges.length - 1) * izbin + ikbin) default)) := by
  simp only [fill_cell] at h
  cases azw with
  | false =>
    rw [if_neg (by simp)] at h
    rcases fill_cell_core_ok h with ⟨row, h1, h2, h3, h4, h5⟩
    exact ⟨row, h1, h2, h3, fun h0 => h5 (by rw [← h4, h0])⟩
  | true =>
    rw [if_pos rfl] at h
    split at h
    · exact absurd h (by simp)
    · split at h
      · rcases fill_cell_core_ok h with ⟨row, h1, h2, h3, h4, h5⟩
        exact ⟨row, h1, h2, h3, fun h0 => h5 (by rw [← h4, h0])⟩
      · exact absurd h (by simp)

theorem fill_cells_fold {samples : List Sample} {zbin_edges kbin_edges : List ℚ}
    {wm : String} {azw nomed : Bool} {fitVar : List ℚ → List ℚ → ℚ → ℚ}
    {izbin : ℕ} :
    ∀ (l : List ℕ) (tbl tbl' : List MeanRow), l.Nodup →
      (∀ ik ∈ l, (kbin_edges.length - 1) * izbin + ik < tbl.length) →
      l.foldlM (fill_cell samples zbin_edges kbin_edges wm azw nomed fitVar izbin) tbl
        = .ok tbl' →
      tbl'.length = tbl.length ∧
      (∀ idx, (∀ ik ∈ l, idx ≠ (kbin_edges.length - 1) * izbin + ik) →
        tbl'.getD idx default = tbl.getD idx default) ∧
      (∀ ik ∈ l,
        (tbl'.getD ((kbin_edges.length - 1) * izbin + ik) default).zbin =
          zbin_centers_def zbin_edges izbin ∧
        (tbl'.getD ((kbin_edges.length - 1) * izbin + ik) default).index_zbin = izbin ∧
        ((tbl'.getD ((kbin_edges.length - 1) * izbin + ik) default).n = 0 →
          statsPreserved (tbl'.getD ((kbin_edges.length - 1) * izbin + ik) default)
            (tbl.getD ((kbin_edges.length - 1) * izbin + ik) default))) := by
  intro l
  induction l with
  | nil =>
    intro tbl tbl' hnd hbd h
    have ht : tbl' = tbl := (Except.ok.inj h).symm
    subst ht
    exact ⟨rfl, fun idx _ => rfl, fun ik hik => by simp at hik⟩
  | cons ik l ih =>
    intro tbl tbl' hnd hbd h
    rw [List.foldlM_cons] at h
    cases hstep : fill_cell samples zbin_edges kbin_edges wm azw nomed fitVar izbin
        tbl ik with
    | error e =>
      rw [hstep, error_bind_helper] at h
      exact absurd h (by simp)
    | ok t1 =>
      rw [hstep, ok_bind_helper] at h
      rcases fill_cell_ok hstep with ⟨row, ht1, hz, hi, hstat⟩
      have hlen1 : t1.length = tbl.length := by rw [ht1, List.length_set]
      have hbd1 : ∀ ik' ∈ l, (kbin_edges.length - 1) * izbin + ik' < t1.length := by
        intro ik' hik'
        rw [hlen1]
        exact hbd ik' (by simp [hik'])
      rcases ih t1 tbl' (List.Nodup.of_cons hnd) hbd1 h with ⟨ihlen, ihout, ihrow⟩
      have hiknotin : ik ∉ l := (List.nodup_cons.mp hnd).1
      have hbound : (kbin_edges.length - 1) * izbin + ik < tbl.length :=
        hbd ik (by simp)
      refine ⟨ihlen.trans hlen1, ?_, ?_⟩
      · intro idx hidx
        rw [ihout idx (fun ik' hik' => hidx ik' (by simp [hik']))]
        rw [ht1, getD_set_ne_helper _ _ _ _ (fun hc => hidx ik (by simp) hc.symm)]
      · intro ik' hik'
        rcases List.mem_cons.mp hik' with rfl | hmem
        · have hfix : tbl'.getD ((kbin_edges.length - 1) * izbin + ik') default = row := by
            rw [ihout _ (fun ik2 hik2 hc => hiknotin (by
              have : ik' = ik2 := by omega
              rw [this]
              exact hik2))]
            rw [ht1, getD_set_self_helper _ _ _ hbound]
          rw [hfix]
          exact ⟨hz, hi, hstat⟩
        · have ht1row : t1.getD ((kbin_edges.length - 1) * izbin + ik') default =
              tbl.getD ((kbin_edges.length - 1) * izbin + ik') default := by
            rw [ht1, getD_set_ne_helper]
            intro hc
            have : ik = ik' := by omega
            exact hiknotin (this ▸ hmem)
          rcases ihrow ik' hmem with ⟨a1, a2, a3⟩
          exact ⟨a1, a2, fun h0 => ht1row ▸ a3 h0⟩

theorem set_fold_shape {zbin_edges : List ℚ} {izbin K : ℕ} :
    ∀ (l : List ℕ) (tbl : List MeanRow), l.Nodup →
      (l.foldl (fun t ik =>
        t.set (K * izbin + ik)
          { t.getD (K * izbin + ik) default with
            zbin := zbin_centers_def zbin_edges izbin, index_zbin := izbin }) tbl).length
        = tbl.length ∧
      (∀ idx, (∀ ik ∈ l, idx ≠ K * izbin + ik) →
        (l.foldl (fun t ik =>
          t.set (K * izbin + ik)
            { t.getD (K * izbin + ik) default with
              zbin := zbin_centers_def zbin_edges izbin, index_zbin := izbin }) tbl).getD
          idx default = tbl.getD idx default) ∧
      (∀ ik ∈ l, K * izbin + ik < tbl.length →
        ((l.foldl (fun t ik =>
          t.set (K * izbin + ik)
            { t.getD (K * izbin + ik) default with
              zbin := zbin_centers_def zbin_edges izbin, index_zbin := izbin }) tbl).getD
          (K * izbin + ik) default).zbin = zbin_centers_def zbin_edges izbin ∧
        ((l.foldl (fun t ik =>
          t.set (K * izbin + ik)
            { t.getD (K * izbin + ik) default with
              zbin := zbin_centers_def zbin_edges izbin, index_zbin := izbin }) tbl).getD
          (K * izbin + ik) default).index_zbin = izbin ∧
        ((l.foldl (fun t ik =>
          t.set (K * izbin + ik)
            { t.getD (K * izbin + ik) default with
              zbin := zbin_centers_def zbin_edges izbin, index_zbin := izbin }) tbl).getD
          (K * izbin + ik) default).n = (tbl.getD (K * izbin + ik) default).n ∧
        statsPreserved
          ((l.foldl (fun t ik =>
            t.set (K * izbin + ik)
              { t.getD (K * izbin + ik) default with
                zbin := zbin_centers_def zbin_edges izbin, index_zbin := izbin }) tbl).getD
            (K * izbin + ik) default)
          (tbl.getD (K * izbin + ik) default)) := by
  intro l
  induction l with
  | nil =>
    intro tbl hnd
    exact ⟨rfl, fun idx _ => rfl, fun ik hik => by simp at hik⟩
  | cons ik l ih =>
    intro tbl hnd
    rw [List.foldl_cons]
    set t1 := tbl.set (K * izbin + ik)
      { tbl.getD (K * izbin + ik) default with
        zbin := zbin_centers_def zbin_edges izbin, index_zbin := izbin } with ht1
    have hlen1 : t1.length = tbl.length := by rw [ht1, List.length_set]
    rcases ih t1 (List.Nodup.of_cons hnd) with ⟨ihlen, ihout, ihrow⟩
    have hiknotin : ik ∉ l := (List.nodup_cons.mp hnd).1
    refine ⟨ihlen.trans hlen1, ?_, ?_⟩
    · intro idx hidx
      rw [ihout idx (fun ik' hik' => hidx ik' (by simp [hik']))]
      rw [ht1, getD_set_ne_helper _ _ _ _ (fun hc => hidx ik (by simp) hc.symm)]
    · intro ik' hik' hbound
      rcases List.mem_cons.mp hik' with rfl | hmem
      · have hfix := ihout (K * izbin + ik') (fun ik2 hik2 hc => hiknotin (by
          have : ik' = ik2 := by omega
          rw [this]
          exact hik2))
        rw [hfix, ht1, getD_set_self_helper _ _ _ hbound]
        exact ⟨rfl, rfl, rfl, rfl, rfl, rfl, rfl, rfl⟩
      · have ht1row : t1.getD (K * izbin + ik') default =
            tbl.getD (K * izbin + ik') default := by
          rw [ht1, getD_set_ne_helper]
          intro hc
          have : ik = ik' := by omega
          exact hiknotin (this ▸ hmem)
        have hbound1 : K * izbin + ik' < t1.length := by rw [hlen1]; exact hbound
        rcases ihrow ik' hmem hbound1 with ⟨a1, a2, a3, a4⟩
        rw [ht1row] at a3 a4
        exact ⟨a1, a2, a3, a4⟩

theorem fill_ok_shape {samples : List Sample} {z_array : List ℚ}
    {zbin_edges kbin_edges : List ℚ} {wm : String} {azw nomed : Bool}
    {fitVar : List ℚ → List ℚ → ℚ → ℚ} {izbin : ℕ} {tbl tbl' : List MeanRow}
    (h : fill_average_pk_redshift samples z_array zbin_edges kbin_edges wm azw nomed
      fitVar tbl izbin = .ok tbl')
    (hbd : ∀ ik, ik < kbin_edges.length - 1 →
      (kbin_edges.length - 1) * izbin + ik < tbl.length) :
    tbl'.length = tbl.length ∧
    (∀ idx, (∀ ik, ik < kbin_edges.length - 1 →
        idx ≠ (kbin_edges.length - 1) * izbin + ik) →
      tbl'.getD idx default = tbl.getD idx default) ∧
    (∀ ik, ik < kbin_edges.length - 1 →
      (tbl'.getD ((kbin_edges.length - 1) * izbin + ik) default).zbin =
        zbin_centers_def zbin_edges izbin ∧
      (tbl'.getD ((kbin_edges.length - 1) * izbin + ik) default).index_zbin = izbin ∧
      ((tbl'.getD ((kbin_edges.length - 1) * izbin + ik) default).n = 0 →
        statsPreserved (tbl'.getD ((kbin_edges.length - 1) * izbin + ik) default)
          (tbl.getD ((kbin_edges.length - 1) * izbin + ik) default))) := by
  simp only [fill_average_pk_redshift] at h
  by_cases hcnt : scipy_bin_count z_array zbin_edges izbin = 0
  · rw [if_pos hcnt] at h
    have heq := (Except.ok.inj h).symm
    subst heq
    rcases set_fold_shape (List.range (kbin_edges.length - 1)) tbl
      (List.nodup_range _) with ⟨slen, sout, srow⟩
    refine ⟨slen, ?_, ?_⟩
    · intro idx hidx
      exact sout idx (fun ik hik => hidx ik (List.mem_range.mp hik))
    · intro ik hik
      rcases srow ik (List.mem_range.mpr hik) (hbd ik hik) with ⟨a1, a2, a3, a4⟩
      exact ⟨a1, a2, fun _ => a4⟩
  · rw [if_neg hcnt] at h
    rcases fill_cells_fold (List.range (kbin_edges.length - 1)) tbl tbl'
      (List.nodup_range _) (fun ik hik => hbd ik (List.mem_range.mp hik)) h with
      ⟨flen, fout, frow⟩
    refine ⟨flen, ?_, ?_⟩
    · intro idx hidx
      exact fout idx (fun ik hik => hidx ik (List.mem_range.mp hik))
    · intro ik hik
      exact frow ik (List.mem_range.mpr hik)

theorem compute_fold_shape {samples : List Sample} {z_array : List ℚ}
    {zbin_edges kbin_edges : List ℚ} {wm : String} {azw nomed : Bool}
    {fitVar : List ℚ → List ℚ → ℚ → ℚ} :
    ∀ (l : List ℕ) (tbl tbl' : List MeanRow), l.Nodup →
      tbl.length = (zbin_edges.length - 1) * (kbin_edges.length - 1) →
      (∀ iz ∈ l, iz < zbin_edges.length - 1) →
      (∀ idx, idx < tbl.length → idx / (kbin_edges.length - 1) ∈ l →
        tbl.getD idx default = default) →
      l.foldlM (fill_average_pk_redshift samples z_array zbin_edges kbin_edges wm azw
        nomed fitVar) tbl = .ok tbl' →
      tbl'.length = tbl.length ∧
      (∀ idx, idx < tbl.length → idx / (kbin_edges.length - 1) ∈ l →
        (tbl'.getD idx default).zbin =
          zbin_centers_def zbin_edges (idx / (kbin_edges.length - 1)) ∧
        (tbl'.getD idx default).index_zbin = idx / (kbin_edges.length - 1) ∧
        ((tbl'.getD idx default).n = 0 →
          statsPreserved (tbl'.getD idx default) default)) ∧
      (∀ idx, idx / (kbin_edges.length - 1) ∉ l →
        tbl'.getD idx default = tbl.getD idx default) := by
  intro l
  induction l with
  | nil =>
    intro tbl tbl' hnd hlen hmem hpre h
    have ht : tbl' = tbl := (Except.ok.inj h).symm
    subst ht
    exact ⟨rfl, fun idx _ hin => by simp at hin, fun idx _ => rfl⟩
  | cons iz l ih =>
    intro tbl tbl' hnd hlen hmem hpre h
    rw [List.foldlM_cons] at h
    cases hstep : fill_average_pk_redshift samples z_array zbin_edges kbin_edges wm azw
        nomed fitVar tbl iz with
    | error e =>
      rw [hstep, error_bind_helper] at h
      exact absurd h (by simp)
    | ok t1 =>
      rw [hstep, ok_bind_helper] at h
      have hizZ : iz < zbin_edges.length - 1 := hmem iz (by simp)
      have hbd : ∀ ik, ik < kbin_edges.length - 1 →
          (kbin_edges.length - 1) * iz + ik < tbl.length := by
        intro ik hik
        rw [hlen]
        calc (kbin_edges.length - 1) * iz + ik
            < (kbin_edges.length - 1) * iz + (kbin_edges.length - 1) := by omega
          _ = (kbin_edges.length - 1) * (iz + 1) := by ring
          _ ≤ (kbin_edges.length - 1) * (zbin_edges.length - 1) :=
            Nat.mul_le_mul_left _ hizZ
          _ = (zbin_edges.length - 1) * (kbin_edges.length - 1) := Nat.mul_comm _ _
      rcases fill_ok_shape hstep hbd with ⟨slen, sout, srow⟩
      have hiznotin : iz ∉ l := (List.nodup_cons.mp hnd).1
      have hdiv_ne : ∀ idx, idx / (kbin_edges.length - 1) ≠ iz →
          ∀ ik, ik < kbin_edges.length - 1 →
            idx ≠ (kbin_edges.length - 1) * iz + ik := by
        intro idx hne ik hik hc
        apply hne
        rw [hc, Nat.mul_add_div (by omega), Nat.div_eq_of_lt hik]
        omega
      have ht1pre : ∀ idx, idx < t1.length → idx / (kbin_edges.length - 1) ∈ l →
          t1.getD idx default = default := by
        intro idx hidx hin
        have hne : idx / (kbin_edges.length - 1) ≠ iz := fun hc => hiznotin (hc ▸ hin)
        rw [sout idx (hdiv_ne idx hne)]
        exact hpre idx (by rw [← slen]; exact hidx) (by simp [hin])
      rcases ih t1 tbl' (List.Nodup.of_cons hnd) (slen.trans hlen)
        (fun iz' hiz' => hmem iz' (by simp [hiz'])) ht1pre h with ⟨ihlen, ihdone, ihout⟩
      refine ⟨ihlen.trans slen, ?_, ?_⟩
      · intro idx hidx hin
        rcases List.mem_cons.mp hin with hdiv | hmem'
        · have hKpos : 0 < kbin_edges.length - 1 := by
            rcases Nat.eq_zero_or_pos (kbin_edges.length - 1) with h0 | h0
            · rw [hlen, h0, Nat.mul_zero] at hidx
              omega
            · exact h0
          have hmodlt : idx % (kbin_edges.length - 1) < kbin_edges.length - 1 :=
            Nat.mod_lt _ hKpos
          have hidx_eq : (kbin_edges.length - 1) * iz + idx % (kbin_edges.length - 1)
              = idx := by
            rw [← hdiv]
            exact Nat.div_add_mod idx (kbin_edges.length - 1)
          have hfin : tbl'.getD idx default = t1.getD idx default :=
            ihout idx (fun hc => hiznotin (hdiv ▸ hc))
          rcases srow (idx % (kbin_edges.length - 1)) hmodlt with ⟨a1, a2, a3⟩
          rw [hidx_eq] at a1 a2 a3
          rw [hfin]
          refine ⟨by rw [a1, hdiv], by rw [a2, hdiv], ?_⟩
          intro h0
          have hd : tbl.getD idx default = default :=
            hpre idx hidx (by simp [hin])
          have hs := a3 h0
          rw [hd] at hs
          exact hs
        · exact ihdone idx (by rw [← slen] at hidx; exact (slen ▸ hidx)) hmem'
      · intro idx hnin
        have hne : idx / (kbin_edges.length - 1) ≠ iz := fun hc => hnin (by simp [hc])
        rw [ihout idx (fun hc => hnin (by simp [hc]))]
        exact sout idx (hdiv_ne idx hne)

/-- Claim C2: whenever `compute_mean_pk1d` returns a table, the table has
exactly `nbins_z * nbins_k` rows — one per (z-bin, k-bin) cell, never
dropped — and every row whose member count `N` is 0 carries the bin
identity (`zbin` = bin center, `index_zbin` = z-bin index) with all five
statistics fields NaN. -/
theorem C2_theorem (samples : List Sample) (z_array : List ℚ)
    (zbin_edges kbin_edges : List ℚ) (wm : String) (azw nomed : Bool)
    (fitVar : List ℚ → List ℚ → ℚ → ℚ) (t : List MeanRow)
    (h : compute_mean_pk1d samples z_array zbin_edges kbin_edges wm azw nomed fitVar
      = .ok t) :
    t.length = (zbin_edges.length - 1) * (kbin_edges.length - 1) ∧
    (∀ idx, idx < t.length → (t.getD idx default).n = 0 →
      (t.getD idx default).zbin =
        zbin_centers_def zbin_edges (idx / (kbin_edges.length - 1)) ∧
      (t.getD idx default).index_zbin = idx / (kbin_edges.length - 1) ∧
      (t.getD idx default).meanv = none ∧
      (t.getD idx default).errv = none ∧
      (t.getD idx default).minv = none ∧
      (t.getD idx default).maxv = none ∧
      (t.getD idx default).medv = none) := by
  unfold compute_mean_pk1d at h
  have hrep : (List.replicate
      ((zbin_edges.length - 1) * (kbin_edges.length - 1)) (default : MeanRow)).length
      = (zbin_edges.length - 1) * (kbin_edges.length - 1) := List.length_replicate _ _
  rcases compute_fold_shape (List.range (zbin_edges.length - 1)) _ t
    (List.nodup_range _) hrep (fun iz hiz => List.mem_range.mp hiz)
    (fun idx _ _ => getD_replicate_helper _ idx) h with ⟨hlen, hdone, _⟩
  have hlen' : t.length = (zbin_edges.length - 1) * (kbin_edges.length - 1) :=
    hlen.trans hrep
  refine ⟨hlen', ?_⟩
  intro idx hidx hn
  have hidx' : idx < (zbin_edges.length - 1) * (kbin_edges.length - 1) := by
    rw [← hlen']
    exact hidx
  have hKpos : 0 < kbin_edges.length - 1 := by
    rcases Nat.eq_zero_or_pos (kbin_edges.length - 1) with h0 | h0
    · rw [h0, Nat.mul_zero] at hidx'
      omega
    · exact h0
  have hdivZ : idx / (kbin_edges.length - 1) < zbin_edges.length - 1 :=
    (Nat.div_lt_iff_lt_mul hKpos).mpr hidx'
  rcases hdone idx (by rw [hrep]; exact hidx') (List.mem_range.mpr hdivZ)
    with ⟨a1, a2, a3⟩
  rcases a3 hn with ⟨b1, b2, b3, b4, b5⟩
  exact ⟨a1, a2, b1, b2, b3, b4, b5⟩

/-- Witness for C2: the empty run with one z bin and one k bin returns
exactly one row, holding the bin identity and NaN statistics. -/
theorem C2_witness :
    ([(⟨zbin_centers_def [0, 1] 0, 0, 0, none, none, none, none, none⟩ :
        MeanRow)].length = (([0, 1] : List ℚ).length - 1) * (([0, 1] : List ℚ).length - 1)) ∧
    (([(⟨zbin_centers_def [0, 1] 0, 0, 0, none, none, none, none, none⟩ :
        MeanRow)].getD 0 default).meanv = none) := by
  have h : compute_mean_pk1d [] [] [0, 1] [0, 1] "no_weights" false false
      (fun _ _ _ => 1) =
      .ok [⟨zbin_centers_def [0, 1] 0, 0, 0, none, none, none, none, none⟩] := rfl
  have hc := C2_theorem [] [] [0, 1] [0, 1] "no_weights" false false (fun _ _ _ => 1)
    [⟨zbin_centers_def [0, 1] 0, 0, 0, none, none, none, none, none⟩] h
  refine ⟨hc.1, ?_⟩
  exact (hc.2 0 (by simp) rfl).2.2.1

theorem dispatch_unknown_error (wm : String) (azw : Bool)
    (fitVar : List ℚ → List ℚ → ℚ → ℚ) (vals : List (Option ℚ)) (snrs rw : List ℚ)
    (h1 : wm ≠ "fit_snr") (h2 : wm ≠ "simple_snr") (h3 : wm ≠ "no_weights") :
    weight_dispatch wm azw fitVar vals snrs rw =
      .error "weight_method option not found" := by
  unfold weight_dispatch
  rw [if_neg h1, if_neg h2, if_neg h3]

theorem fill_cell_unknown_err (samples : List Sample)
    (zbin_edges kbin_edges : List ℚ) (wm : String) (nomed : Bool)
    (fitVar : List ℚ → List ℚ → ℚ → ℚ) (izbin : ℕ) (tbl : List MeanRow) (ikbin : ℕ)
    (h1 : wm ≠ "fit_snr") (h2 : wm ≠ "simple_snr") (h3 : wm ≠ "no_weights")
    (hsel : (samples.filter (fun s =>
      select_zk zbin_edges kbin_edges izbin ikbin s.forest_z s.k)).length ≠ 0) :
    fill_cell samples zbin_edges kbin_edges wm false nomed fitVar izbin tbl ikbin =
      .error "weight_method option not found" := by
  simp only [fill_cell]
  rw [if_neg (by simp)]
  simp only [fill_cell_core]
  rw [if_neg hsel, dispatch_unknown_error wm false fitVar _ _ _ h1 h2 h3]

theorem fill_cell_zw_err (samples : List Sample) (zbin_edges kbin_edges : List ℚ)
    (wm : String) (nomed : Bool) (fitVar : List ℚ → List ℚ → ℚ → ℚ)
    (izbin : ℕ) (tbl : List MeanRow) (ikbin : ℕ) (d0 : ℚ) (ds : List ℚ)
    (hd : z_center_deltas zbin_edges = d0 :: ds)
    (hviol : (d0 :: ds).all (fun d => decide (|d - d0| ≤ 1 / 1000 + |d0| / 100000))
      = false) :
    fill_cell samples zbin_edges kbin_edges wm true nomed fitVar izbin tbl ikbin =
      .error "z bins should have equal widths with apply_z_weights." := by
  simp only [fill_cell]
  rw [if_pos trivial]
  split
  · rename_i heq
    rw [hd] at heq
    simp at heq
  · rename_i d0' ds' heq
    rw [hd] at heq
    obtain ⟨rfl, rfl⟩ : d0' = d0 ∧ ds' = ds := by
      constructor <;> injection heq <;> simp_all
    rw [if_neg (by rw [hviol]; simp)]

theorem fill_empty_ok (samples : List Sample) (z_array : List ℚ)
    (zbin_edges kbin_edges : List ℚ) (wm : String) (azw nomed : Bool)
    (fitVar : List ℚ → List ℚ → ℚ → ℚ) (izbin : ℕ)
    (hcnt : scipy_bin_count z_array zbin_edges izbin = 0) (tbl : List MeanRow) :
    ∃ t, fill_average_pk_redshift samples z_array zbin_edges kbin_edges wm azw nomed
      fitVar tbl izbin = .ok t :=
  ⟨_, by simp only [fill_average_pk_redshift]; rw [if_pos hcnt]⟩

/-- Claim C8, as stated, is false: the configuration checks do not run
before the aggregation.  A run whose bins contain no chunks completes
without any error, both with an unrecognized weighting-strategy name and
with redshift-proximity weighting over non-uniformly spaced redshift
bins. -/
theorem C8_counterexample :
    exceptIsOk (compute_mean_pk1d [] [] [0, 1] [0, 1] "bogus" false false
      (fun _ _ _ => 1)) = true ∧
    exceptIsOk (compute_mean_pk1d [] [] [0, 1, 2, 5] [0, 1] "no_weights" true false
      (fun _ _ _ => 1)) = true := by
  constructor <;> rfl

/-- Claim C8, amended: the two configuration errors are raised inside the
per-redshift-bin aggregation, not before it.  A run in which every
redshift bin holds zero chunks completes without raising either error;
an unrecognized weighting-strategy name makes the run fail as soon as a
populated redshift bin has a cell with members; proximity weighting over
non-uniformly spaced redshift bins makes the run fail as soon as a
populated redshift bin is aggregated. -/
theorem C8_amended (samples : List Sample) (z_array : List ℚ)
    (zbin_edges kbin_edges : List ℚ) (wm : String) (nomed : Bool)
    (fitVar : List ℚ → List ℚ → ℚ → ℚ) :
    ((∀ iz, iz < zbin_edges.length - 1 →
        scipy_bin_count z_array zbin_edges iz = 0) →
      ∀ (wm' : String) (azw : Bool), ∃ t,
        compute_mean_pk1d samples z_array zbin_edges kbin_edges wm' azw nomed fitVar
          = .ok t) ∧
    (∀ iz ik, wm ≠ "fit_snr" → wm ≠ "simple_snr" → wm ≠ "no_weights" →
      iz < zbin_edges.length - 1 →
      scipy_bin_count z_array zbin_edges iz ≠ 0 →
      ik < kbin_edges.length - 1 →
      (samples.filter (fun s =>
        select_zk zbin_edges kbin_edges iz ik s.forest_z s.k)).length ≠ 0 →
      exceptIsOk (compute_mean_pk1d samples z_array zbin_edges kbin_edges wm false
        nomed fitVar) = false) ∧
    (∀ iz d0 ds, z_center_deltas zbin_edges = d0 :: ds →
      (d0 :: ds).all (fun d => decide (|d - d0| ≤ 1 / 1000 + |d0| / 100000)) = false →
      iz < zbin_edges.length - 1 →
      scipy_bin_count z_array zbin_edges iz ≠ 0 →
      0 < kbin_edges.length - 1 →
      exceptIsOk (compute_mean_pk1d samples z_array zbin_edges kbin_edges wm true
        nomed fitVar) = false) := by
  refine ⟨?_, ?_, ?_⟩
  · intro h0 wm' azw
    unfold compute_mean_pk1d
    exact foldlM_ok_of_all _ (List.range (zbin_edges.length - 1))
      (fun s iz hiz => fill_empty_ok samples z_array zbin_edges kbin_edges wm' azw
        nomed fitVar iz (h0 iz (List.mem_range.mp hiz)) s) _
  · intro iz ik h1 h2 h3 hiz hcnt hik hsel
    cases hres : compute_mean_pk1d samples z_array zbin_edges kbin_edges wm false
        nomed fitVar with
    | error e => rfl
    | ok t =>
      exfalso
      unfold compute_mean_pk1d at hres
      rcases foldlM_ok_steps _ _ _ _ hres iz (List.mem_range.mpr hiz)
        with ⟨s1, t1, hfill⟩
      simp only [fill_average_pk_redshift] at hfill
      rw [if_neg hcnt] at hfill
      rcases foldlM_ok_steps _ _ _ _ hfill ik (List.mem_range.mpr hik)
        with ⟨s2, t2, hcell⟩
      rw [fill_cell_unknown_err samples zbin_edges kbin_edges wm nomed fitVar iz s2 ik
        h1 h2 h3 hsel] at hcell
      exact absurd hcell (by simp)
  · intro iz d0 ds hd hviol hiz hcnt hK
    cases hres : compute_mean_pk1d samples z_array zbin_edges kbin_edges wm true
        nomed fitVar with
    | error e => rfl
    | ok t =>
      exfalso
      unfold compute_mean_pk1d at hres
      rcases foldlM_ok_steps _ _ _ _ hres iz (List.mem_range.mpr hiz)
        with ⟨s1, t1, hfill⟩
      simp only [fill_average_pk_redshift] at hfill
      rw [if_neg hcnt] at hfill
      rcases foldlM_ok_steps _ _ _ _ hfill 0 (List.mem_range.mpr hK)
        with ⟨s2, t2, hcell⟩
      rw [fill_cell_zw_err samples zbin_edges kbin_edges wm nomed fitVar iz s2 0 d0 ds
        hd hviol] at hcell
      exact absurd hcell (by simp)

/-- Witness for C8 (amended): an all-empty run completes with any options;
one in-range chunk makes the bogus-weight-method run and the
non-uniform-bins proximity-weighting run fail. -/
theorem C8_witness :
    (∃ t, compute_mean_pk1d [] [] [0, 1] [0, 1] "bogus" true false (fun _ _ _ => 1)
      = .ok t) ∧
    exceptIsOk (compute_mean_pk1d [⟨1/2, 1/2, 5, some 1⟩] [1/2] [0, 1] [0, 1] "bogus"
      false false (fun _ _ _ => 1)) = false ∧
    exceptIsOk (compute_mean_pk1d [⟨1/2, 1/2, 5, some 1⟩] [1/2] [0, 1, 2, 5] [0, 1]
      "no_weights" true false (fun _ _ _ => 1)) = false := by
  have hcnt1 : scipy_bin_count [(1 : ℚ)/2] [0, 1] 0 = 1 := by
    unfold scipy_bin_count
    norm_num [List.getD, List.filter]
  have hsel1 : (([⟨1/2, 1/2, 5, some 1⟩] : List Sample).filter (fun s =>
      select_zk [0, 1] [0, 1] 0 0 s.forest_z s.k)).length = 1 := by
    norm_num [List.filter, select_zk, List.getD]
  have hcnt2 : scipy_bin_count [(1 : ℚ)/2] [0, 1, 2, 5] 0 = 1 := by
    unfold scipy_bin_count
    norm_num [List.getD, List.filter]
  have hr3 : List.range (([0, 1, 2, 5] : List ℚ).length - 1) = [0, 1, 2] := rfl
  have hc0 : zbin_centers_def [0, 1, 2, 5] 0 = 1 / 2 := by
    unfold zbin_centers_def np_around5
    norm_num [List.getD]
  have hc1 : zbin_centers_def [0, 1, 2, 5] 1 = 3 / 2 := by
    unfold zbin_centers_def np_around5
    norm_num [List.getD]
  have hc2 : zbin_centers_def [0, 1, 2, 5] 2 = 7 / 2 := by
    unfold zbin_centers_def np_around5
    norm_num [List.getD]
  have hd : z_center_deltas [0, 1, 2, 5] = [1, 2] := by
    unfold z_center_deltas
    rw [hr3]
    simp only [List.map_cons, List.map_nil, List.tail_cons, List.zip_cons_cons,
      List.zip_nil_right]
    rw [hc0, hc1, hc2]
    norm_num
  have hviol : (([1, 2] : List ℚ).all
      (fun d => decide (|d - 1| ≤ 1 / 1000 + |(1 : ℚ)| / 100000))) = false := by
    simp only [List.all_cons, List.all_nil]
    norm_num
  refine ⟨?_, ?_, ?_⟩
  · exact (C8_amended [] [] [0, 1] [0, 1] "x" false (fun _ _ _ => 1)).1
      (fun iz _ => rfl) "bogus" true
  · exact (C8_amended [⟨1/2, 1/2, 5, some 1⟩] [1/2] [0, 1] [0, 1] "bogus" false
      (fun _ _ _ => 1)).2.1 0 0 (by decide) (by decide) (by decide) (by norm_num)
      (by rw [hcnt1]; norm_num) (by norm_num) (by rw [hsel1]; norm_num)
  · exact (C8_amended [⟨1/2, 1/2, 5, some 1⟩] [1/2] [0, 1, 2, 5] [0, 1] "no_weights"
      false (fun _ _ _ => 1)).2.2 0 1 [2] hd hviol (by norm_num)
      (by rw [hcnt2]; norm_num) (by norm_num)
